import Mathlib

/-!
# pet::utils — SPSC ring buffer and asynchronous logger

A shallow embedding of `libs/utils/include/utils/ring_buffer.hpp` and
`libs/utils/include/utils/async_logger.hpp`, followed by the properties
proved about them.

Conventions of the embedding

* `size_t` values are natural numbers; every arithmetic result is reduced
  modulo `2 ^ 64` exactly where the C++ expression would wrap.
* The template parameter `Size` is an explicit argument of every operation.
* `T buffer_[Size]` is a list of slots; a read outside the list yields
  `default`, a write outside the list is dropped.
* A call of `try_push` / `try_pop` is one atomic step (sequentially
  consistent interleaving); memory orderings are not represented.
* The file of the logger is the list of its bytes. The stream `file_` carries
  its error state: the device can refuse a write at any moment (`io_error`),
  after which insertions reach the file no more. A line is inserted as a
  whole; a refused write that leaves part of a line in the file is not
  represented.
-/

namespace pet.utils

/-- The modulus of `size_t` arithmetic. -/
def SIZE_MOD : Nat := 2 ^ 64

/-- Unsigned 64-bit subtraction `a - b`. -/
def usub (a b : Nat) : Nat := Int.toNat (((a : Int) - (b : Int)) % (SIZE_MOD : Int))

/-- Unsigned 64-bit addition `a + b`. -/
def uadd (a b : Nat) : Nat := (a + b) % SIZE_MOD

/-- The data members of `RingBuffer<T, Size>`. -/
structure RingBuffer (T : Type) where
  write_pos_ : Nat
  read_pos_ : Nat
  buffer_ : List T
deriving DecidableEq, Repr

namespace RingBuffer

variable {T : Type}

/-- The two `static_assert`s on the template parameter. -/
def static_assert_ok (Size : Nat) : Bool :=
  (Size &&& usub Size 1 == 0) && decide (Size > 0)

/-- `static constexpr size_t mask_ = Size - 1;` -/
def mask_ (Size : Nat) : Nat := usub Size 1

/-- `RingBuffer() : write_pos_(0), read_pos_(0) {}`; the slots are
default-initialised, so their initial contents `slots` are arbitrary. -/
def new (slots : List T) : RingBuffer T :=
  { write_pos_ := 0, read_pos_ := 0, buffer_ := slots }

/-- `bool try_push(const T& item)`; the `T&&` overload has the same effect on
the buffer. Returns the result and the state after the call. -/
def try_push (Size : Nat) (s : RingBuffer T) (item : T) : Bool × RingBuffer T :=
  let current_write := s.write_pos_
  let next_write := uadd current_write 1 &&& mask_ Size
  if next_write = s.read_pos_ then
    (false, s)
  else
    (true, { s with buffer_ := s.buffer_.set current_write item, write_pos_ := next_write })

/-- `bool try_pop(T& item)`. Returns the result, the state after the call and
the value of the output argument after the call. `moved v` is the value a slot
is left with after `std::move` took `v` out of it (the identity for trivially
copyable element types). -/
def try_pop [Inhabited T] (Size : Nat) (moved : T → T) (s : RingBuffer T) (item : T) :
    Bool × RingBuffer T × T :=
  let current_read := s.read_pos_
  if current_read = s.write_pos_ then
    (false, s, item)
  else
    let v := s.buffer_.getD current_read default
    (true,
      { s with buffer_ := s.buffer_.set current_read (moved v),
               read_pos_ := uadd current_read 1 &&& mask_ Size },
      v)

/-- `bool empty() const` -/
def empty (s : RingBuffer T) : Bool := s.read_pos_ == s.write_pos_

/-- `bool full() const` -/
def full (Size : Nat) (s : RingBuffer T) : Bool :=
  (uadd s.write_pos_ 1 &&& mask_ Size) == s.read_pos_

/-- `size_t size() const` -/
def size (Size : Nat) (s : RingBuffer T) : Nat :=
  usub s.write_pos_ s.read_pos_ &&& mask_ Size

/-- `static constexpr size_t capacity()` -/
def capacity (Size : Nat) : Nat := usub Size 1

/-- One call made on a ring buffer: a push of `x`, or a pop into a variable
that holds `item` before the call. -/
inductive Op (T : Type) where
  | push (x : T)
  | pop (item : T)
deriving DecidableEq, Repr

/-- The state after one call. -/
def step [Inhabited T] (Size : Nat) (moved : T → T) (s : RingBuffer T) : Op T → RingBuffer T
  | .push x => (try_push Size s x).2
  | .pop item => (try_pop Size moved s item).2.1

/-- The state after a sequence of calls, made in order. -/
def run [Inhabited T] (Size : Nat) (moved : T → T) (s : RingBuffer T) : List (Op T) → RingBuffer T
  | [] => s
  | op :: ops => run Size moved (step Size moved s op) ops

/-- Number of `try_push` calls of the sequence that return true. -/
def pushes_ok [Inhabited T] (Size : Nat) (moved : T → T) (s : RingBuffer T) : List (Op T) → Nat
  | [] => 0
  | .push x :: ops =>
      (if (try_push Size s x).1 then 1 else 0) + pushes_ok Size moved (try_push Size s x).2 ops
  | .pop item :: ops => pushes_ok Size moved (try_pop Size moved s item).2.1 ops

/-- Number of `try_pop` calls of the sequence that return true. -/
def pops_ok [Inhabited T] (Size : Nat) (moved : T → T) (s : RingBuffer T) : List (Op T) → Nat
  | [] => 0
  | .push x :: ops => pops_ok Size moved (try_push Size s x).2 ops
  | .pop item :: ops =>
      (if (try_pop Size moved s item).1 then 1 else 0)
        + pops_ok Size moved (try_pop Size moved s item).2.1 ops

/-- Push every element of `xs` in order (the first loop of the `MultiplePushPop`
test); returns the results of the calls and the final state. -/
def push_all (Size : Nat) (s : RingBuffer T) : List T → List Bool × RingBuffer T
  | [] => ([], s)
  | x :: xs =>
      let r := try_push Size s x
      let rest := push_all Size r.2 xs
      (r.1 :: rest.1, rest.2)

/-- Call `try_pop` `n` times, each time into a variable holding `item` (the
second loop of the `MultiplePushPop` test); returns for each call its result
and the value of the variable after it, and the final state. -/
def pop_n [Inhabited T] (Size : Nat) (moved : T → T) (item : T) (s : RingBuffer T) :
    Nat → List (Bool × T) × RingBuffer T
  | 0 => ([], s)
  | n + 1 =>
      let r := try_pop Size moved s item
      let rest := pop_n Size moved item r.2.1 n
      ((r.1, r.2.2) :: rest.1, rest.2)

/-- The slots that hold pushed, not yet popped elements, oldest first:
`read_pos_, read_pos_ + 1, …, write_pos_ - 1` (indices modulo `Size`). -/
def contents [Inhabited T] (Size : Nat) (s : RingBuffer T) : List T :=
  (List.range (size Size s)).map fun i => s.buffer_.getD ((s.read_pos_ + i) % Size) default

/-- Cursors inside the array and the array of the declared length. -/
def WellFormed (Size : Nat) (s : RingBuffer T) : Prop :=
  s.write_pos_ < Size ∧ s.read_pos_ < Size ∧ s.buffer_.length = Size

/-- What a call hands back to its caller: the Boolean result and, for a pop,
the value of the output argument after the call. -/
def observe [Inhabited T] (Size : Nat) (moved : T → T) (s : RingBuffer T) :
    Op T → Bool × Option T
  | .push x => ((try_push Size s x).1, none)
  | .pop item => ((try_pop Size moved s item).1, some (try_pop Size moved s item).2.2)

/-- What the calls of a sequence hand back, in order. -/
def observations [Inhabited T] (Size : Nat) (moved : T → T) (s : RingBuffer T) :
    List (Op T) → List (Bool × Option T)
  | [] => []
  | op :: ops => observe Size moved s op :: observations Size moved (step Size moved s op) ops

end RingBuffer

/-! ## The bounded FIFO queue the ring buffer is compared with

These definitions follow the wording of the specification, not the code: a
queue is the list of the elements it holds, oldest first, and holds at most
`Size - 1` of them. -/

namespace BoundedQueue

variable {T : Type}

/-- A push succeeds exactly when fewer than `Size - 1` elements are held, and
then puts `x` behind them; a failed push leaves the list as it is. -/
def try_push (Size : Nat) (q : List T) (x : T) : Bool × List T :=
  if q.length < Size - 1 then (true, q ++ [x]) else (false, q)

/-- A pop of `x :: q` succeeds, leaves `q` and returns `x`; a pop of the empty
list fails and leaves the list and the output argument as they are. -/
def try_pop (q : List T) (item : T) : Bool × List T × T :=
  match q with
  | [] => (false, [], item)
  | x :: rest => (true, rest, x)

/-- The list after one call. -/
def step (Size : Nat) (q : List T) : RingBuffer.Op T → List T
  | .push x => (try_push Size q x).2
  | .pop item => (try_pop q item).2.1

/-- What one call hands back. -/
def observe (Size : Nat) (q : List T) : RingBuffer.Op T → Bool × Option T
  | .push x => ((try_push Size q x).1, none)
  | .pop item => ((try_pop q item).1, some (try_pop q item).2.2)

/-- The list after a sequence of calls. -/
def run (Size : Nat) (q : List T) : List (RingBuffer.Op T) → List T
  | [] => q
  | op :: ops => run Size (step Size q op) ops

/-- What the calls of a sequence hand back, in order. -/
def observations (Size : Nat) (q : List T) : List (RingBuffer.Op T) → List (Bool × Option T)
  | [] => []
  | op :: ops => observe Size q op :: observations Size (step Size q op) ops

end BoundedQueue

/-! ## The asynchronous logger -/

/-- The terminator of a C string. -/
def NUL : Char := Char.ofNat 0

/-- `sizeof(entry.message)` -/
def MESSAGE_SIZE : Nat := 256

/-- `struct LogEntry { char message[256]; std::chrono::nanoseconds timestamp; }`;
the timestamp is its signed tick count. -/
structure LogEntry where
  message : List Char
  timestamp : Int
deriving DecidableEq, Repr

instance : Inhabited LogEntry := ⟨{ message := [], timestamp := 0 }⟩

/-- `std::strlen`: the number of bytes in front of the first NUL of the memory
`msg` points to. -/
def strlen (msg : List Char) : Nat := (msg.takeWhile (fun c => c != NUL)).length

/-- `std::memcpy(dst, src, n)`: the first `n` bytes of `dst` replaced by those
of `src`. -/
def memcpy (dst src : List Char) (n : Nat) : List Char := src.take n ++ dst.drop n

/-- The bytes `operator<<(ostream&, const char*)` inserts: those in front of the
first NUL. -/
def c_str (m : List Char) : List Char := m.takeWhile (fun c => c != NUL)

/-- The characters `operator<<` inserts for a signed integer with the default
formatting flags: a minus sign for a negative value, then the decimal digits of
the magnitude. -/
def decimal : Int → List Char
  | Int.ofNat n => Nat.toDigits 10 n
  | Int.negSucc n => '-' :: Nat.toDigits 10 (n + 1)

/-- The line `write_entry` inserts for an entry. -/
def format_entry (entry : LogEntry) : List Char :=
  ['['] ++ decimal entry.timestamp ++ [']', ' '] ++ c_str entry.message ++ ['\n']

/-- The data members of `AsyncLogger`, and the file they refer to.

* `thread_` is `thread_.joinable()`: a worker executing `flush_loop` exists;
* `file_` is `file_.is_open()`;
* `content` is the sequence of bytes of the file at `filepath_`. A line counts
  as bytes of the file from the moment it is inserted into a stream whose
  writes succeed; a write that fails and so also loses lines that were inserted
  earlier and were still in the stream's buffer is the run in which `io_error`
  comes before those insertions;
* `spawned` counts the `std::thread` objects `start` has constructed;
* `stream_failed` is the error state of `file_` (`failbit` or `badbit` set):
  while it is set, the insertion operators put nothing into the stream. The
  code never inspects it;
* `inserted` is the sequence of bytes `write_entry` has passed to the insertion
  operators of `file_`, whether or not they reached the file. -/
structure AsyncLogger where
  buffer_ : RingBuffer LogEntry
  running_ : Bool
  thread_ : Bool
  file_ : Bool
  content : List Char
  spawned : Nat
  stream_failed : Bool
  inserted : List Char
deriving DecidableEq, Repr

namespace AsyncLogger

/-- The `Size` argument of `RingBuffer<LogEntry, 2048> buffer_`. -/
def BUFFER_SIZE : Nat := 2048

/-- `explicit AsyncLogger(const std::string& filepath)`; `slots` are the initial
contents of the buffer's array and `content` the bytes the file at `filepath`
holds (none when it does not exist). -/
def new (slots : List LogEntry) (content : List Char) : AsyncLogger :=
  { buffer_ := RingBuffer.new slots, running_ := false, thread_ := false, file_ := false,
    content := content, spawned := 0, stream_failed := false, inserted := [] }

/-- `void start()`. `open_ok` tells whether the operating system lets
`file_.open(filepath_, out | app)` succeed; opening in append mode keeps the
bytes of the file, and `open` on a stream that is open already leaves it open.
An `open` that succeeds clears the error state of the stream; one that fails
(also because the stream is open already) sets it.
The assignment to `thread_` presupposes that `thread_` is not joinable, which
`Consistent` gives for every stopped logger that can be reached. -/
def start (open_ok : Bool) (s : AsyncLogger) : AsyncLogger :=
  if s.running_ then
    s
  else
    let s1 := { s with running_ := true }
    let s2 := { s1 with file_ := s1.file_ || open_ok,
                        stream_failed := !(!s1.file_ && open_ok) }
    if !s2.file_ then
      { s2 with running_ := false }
    else
      { s2 with thread_ := true, spawned := s2.spawned + 1 }

/-- `void write_entry(const LogEntry& entry)`: the line is passed to the
insertion operators of `file_`, and reaches the file unless the stream is in
its error state. -/
def write_entry (entry : LogEntry) (s : AsyncLogger) : AsyncLogger :=
  if !s.file_ then
    s
  else
    { s with inserted := s.inserted ++ format_entry entry,
             content := if s.stream_failed then s.content
                        else s.content ++ format_entry entry }

/-- The device refuses a write of the open stream (at an insertion, at a
`flush()` or at the `close()`): the stream enters its error state, and stays in
it until an `open` succeeds. The code has no check that would notice. -/
def io_error (s : AsyncLogger) : AsyncLogger :=
  if s.file_ then { s with stream_failed := true } else s

/-- One turn of the inner loop `while (buffer_.try_pop(entry)) write_entry(entry)`
of `flush_loop`, taken by the background thread; nothing happens when there is
no background thread. `LogEntry` is trivially copyable, so moving out of a slot
leaves the slot as it was. The local `entry` is read only after a successful
`try_pop` has assigned it, so the value it holds before the call is immaterial
and taken to be `default`; the same goes for the two loops below. -/
def worker_step (s : AsyncLogger) : AsyncLogger :=
  if !s.thread_ then
    s
  else
    let r := RingBuffer.try_pop BUFFER_SIZE id s.buffer_ default
    if r.1 then write_entry r.2.2 { s with buffer_ := r.2.1 } else s

/-- What the background thread still does between `running_.exchange(false)` and
the return of `thread_.join()`: at most `k` further turns of its inner loop,
ending early when `try_pop` returns false. -/
def worker_exit : Nat → AsyncLogger → AsyncLogger
  | 0, s => s
  | k + 1, s =>
      let r := RingBuffer.try_pop BUFFER_SIZE id s.buffer_ default
      if r.1 then worker_exit k (write_entry r.2.2 { s with buffer_ := r.2.1 }) else s

/-- The loop of `flush_remaining`, run with `fuel` turns at most: `none` when
the fuel is used up before `try_pop` returns false. -/
def flush_remaining_loop : Nat → AsyncLogger → Option AsyncLogger
  | 0, _ => none
  | fuel + 1, s =>
      let r := RingBuffer.try_pop BUFFER_SIZE id s.buffer_ default
      if r.1 then flush_remaining_loop fuel (write_entry r.2.2 { s with buffer_ := r.2.1 })
      else some s

/-- `void flush_remaining()`; a `file_.flush()` that the device refuses is an
`io_error` placed before the call. -/
def flush_remaining (fuel : Nat) (s : AsyncLogger) : Option AsyncLogger :=
  flush_remaining_loop fuel s

/-- `void stop()`; `k` bounds the turns the background thread still takes before
`join` returns, `fuel` the turns of the loop of `flush_remaining`. -/
def stop (fuel k : Nat) (s : AsyncLogger) : Option AsyncLogger :=
  if !s.running_ then
    some s
  else
    let s1 := { s with running_ := false }
    let s2 := if s1.thread_ then { worker_exit k s1 with thread_ := false } else s1
    match flush_remaining fuel s2 with
    | none => none
    | some s3 => some (if s3.file_ then { s3 with file_ := false } else s3)

/-- The entry `log` builds (lines 72 to 82): `entry0` is the indeterminate
initial value of the local `entry`, `now` the tick count read from the clock. -/
def log_entry (msg : List Char) (now : Int) (entry0 : LogEntry) : LogEntry :=
  let msg_len := strlen msg
  let copy_len := if msg_len < MESSAGE_SIZE - 1 then msg_len else MESSAGE_SIZE - 1
  let message := (memcpy entry0.message msg copy_len).set copy_len NUL
  { message := message, timestamp := now }

/-- `bool log(const char* msg)`; returns the result and the state after. -/
def log (msg : List Char) (now : Int) (entry0 : LogEntry) (s : AsyncLogger) :
    Bool × AsyncLogger :=
  if !s.running_ then
    (false, s)
  else
    let r := RingBuffer.try_push BUFFER_SIZE s.buffer_ (log_entry msg now entry0)
    (r.1, { s with buffer_ := r.2 })

/-- `bool is_running() const` -/
def is_running (s : AsyncLogger) : Bool := s.running_

/-- What can happen to a logger: a call by the producer thread, a turn of the
background thread, or the device refusing a write of the stream. -/
inductive Event where
  | start (open_ok : Bool)
  | stop (k : Nat)
  | log (msg : List Char) (now : Int) (entry0 : LogEntry)
  | worker
  | io_error
deriving DecidableEq, Repr

/-- The state after one event. -/
def apply (fuel : Nat) (s : AsyncLogger) : Event → Option AsyncLogger
  | .start open_ok => some (start open_ok s)
  | .stop k => stop fuel k s
  | .log msg now entry0 => some (log msg now entry0 s).2
  | .worker => some (worker_step s)
  | .io_error => some (io_error s)

/-- The state after a sequence of events. -/
def exec (fuel : Nat) : AsyncLogger → List Event → Option AsyncLogger
  | s, [] => some s
  | s, e :: es =>
      match apply fuel s e with
      | none => none
      | some s1 => exec fuel s1 es

/-- The entries of the `log` calls of a sequence of events that return true,
in the order of the calls. -/
def accepted (fuel : Nat) : AsyncLogger → List Event → List LogEntry
  | _, [] => []
  | s, e :: es =>
      let rest := match apply fuel s e with
        | none => []
        | some s1 => accepted fuel s1 es
      match e with
      | .log msg now entry0 =>
          if (log msg now entry0 s).1 then log_entry msg now entry0 :: rest else rest
      | _ => rest

/-- The lines `write_entry` inserts for a list of entries, one after the other. -/
def format_all (entries : List LogEntry) : List Char :=
  (entries.map format_entry).flatten

/-- What a reachable logger satisfies: the buffer is well-formed; while running
the file is open and the background thread exists; while stopped the buffer
holds nothing, the file is closed and there is no background thread. -/
def Consistent (s : AsyncLogger) : Prop :=
  RingBuffer.WellFormed BUFFER_SIZE s.buffer_
    ∧ (s.running_ = true → s.file_ = true ∧ s.thread_ = true)
    ∧ (s.running_ = false →
        RingBuffer.size BUFFER_SIZE s.buffer_ = 0 ∧ s.file_ = false ∧ s.thread_ = false)

/-- The bytes of the file once the entries the buffer holds are written too;
none of them reaches the file while the stream is in its error state. -/
def eventual_content (s : AsyncLogger) : List Char :=
  s.content
    ++ (if s.stream_failed then [] else format_all (RingBuffer.contents BUFFER_SIZE s.buffer_))

/-- While the logger runs, the stream of its file is not in the error state. -/
def Writable (s : AsyncLogger) : Prop :=
  s.running_ = true → s.stream_failed = false

/-- Whether an event is a `log` call. -/
def Event.isLog : Event → Bool
  | .log _ _ _ => true
  | _ => false

/-- Whether an event is a turn of the background thread. -/
def Event.isWorker : Event → Bool
  | .worker => true
  | _ => false

/-- A run of `n` `log` calls of `msg` in which the background thread takes one
turn after every call. -/
def log_then_drain (msg : List Char) (n : Nat) : List Event :=
  (List.replicate n [Event.log msg 0 default, Event.worker]).flatten

/-- The characters `write_entry` puts in front of the message: `"[<timestamp>] "`. -/
def timestamp_header (t : Int) : List Char :=
  ['['] ++ decimal t ++ [']', ' ']

end AsyncLogger

/-! ## Arithmetic of the masked cursors -/

section Arith

open RingBuffer

theorem two_pow_lt_SIZE_MOD {k : Nat} (hk : k < 64) : 2 ^ k < SIZE_MOD := by
  unfold SIZE_MOD
  exact Nat.pow_lt_pow_right (by norm_num) hk

theorem two_pow_dvd_SIZE_MOD {k : Nat} (hk : k < 64) : 2 ^ k ∣ SIZE_MOD := by
  unfold SIZE_MOD
  exact pow_dvd_pow 2 (Nat.le_of_lt hk)

theorem usub_of_le {a b : Nat} (hab : b ≤ a) (ha : a < SIZE_MOD) : usub a b = a - b := by
  unfold usub
  have h1 : ((a : Int) - (b : Int)) = ((a - b : Nat) : Int) := by omega
  rw [h1, ← Int.natCast_mod, Int.toNat_ofNat]
  exact Nat.mod_eq_of_lt (by omega)

theorem usub_of_lt {a b : Nat} (hab : a < b) (hb : b < SIZE_MOD) :
    usub a b = a + SIZE_MOD - b := by
  unfold usub
  have h1 : ((a : Int) - (b : Int)) % (SIZE_MOD : Int) = ((a + SIZE_MOD - b : Nat) : Int) := by
    have h2 : ((a : Int) - (b : Int)) = ((a + SIZE_MOD - b : Nat) : Int) + (-1) * (SIZE_MOD : Int) := by
      omega
    rw [h2, Int.add_mul_emod_self, ← Int.natCast_mod]
    congr 1
    exact Nat.mod_eq_of_lt (by omega)
  rw [h1, Int.toNat_ofNat]

theorem mask_two_pow {k : Nat} (hk : k < 64) : mask_ (2 ^ k) = 2 ^ k - 1 := by
  unfold mask_
  exact usub_of_le (Nat.one_le_two_pow) (two_pow_lt_SIZE_MOD hk)

theorem capacity_two_pow {k : Nat} (hk : k < 64) : capacity (2 ^ k) = 2 ^ k - 1 := by
  unfold capacity
  exact usub_of_le (Nat.one_le_two_pow) (two_pow_lt_SIZE_MOD hk)

/-- A value below twice the modulus is reduced by at most one subtraction. -/
theorem mod_of_lt_two_mul {a S : Nat} (h : a < 2 * S) :
    a % S = if a < S then a else a - S := by
  split
  · next h1 => exact Nat.mod_eq_of_lt h1
  · next h1 =>
    rw [Nat.mod_eq_sub_mod (by omega)]
    exact Nat.mod_eq_of_lt (by omega)

/-- The masked successor of a cursor is its successor modulo `Size`. -/
theorem next_pos_eq {k : Nat} (hk : k < 64) {p : Nat} (hp : p < 2 ^ k) :
    uadd p 1 &&& mask_ (2 ^ k) = if p + 1 < 2 ^ k then p + 1 else 0 := by
  have hlt := two_pow_lt_SIZE_MOD hk
  rw [mask_two_pow hk, Nat.and_pow_two_sub_one_eq_mod]
  have h1 : uadd p 1 = p + 1 := Nat.mod_eq_of_lt (by omega)
  have h2 : (p + 1) % 2 ^ k = if p + 1 < 2 ^ k then p + 1 else p + 1 - 2 ^ k :=
    mod_of_lt_two_mul (by omega)
  rw [h1, h2]
  split <;> omega

/-- The masked cursor difference is the difference modulo `Size`. -/
theorem size_eq {T : Type} {k : Nat} (hk : k < 64) {s : RingBuffer T}
    (hs : WellFormed (2 ^ k) s) :
    size (2 ^ k) s =
      if s.read_pos_ ≤ s.write_pos_ then s.write_pos_ - s.read_pos_
      else s.write_pos_ + 2 ^ k - s.read_pos_ := by
  obtain ⟨hw, hr, -⟩ := hs
  have hlt := two_pow_lt_SIZE_MOD hk
  obtain ⟨c, hc⟩ := two_pow_dvd_SIZE_MOD hk
  have hcpos : 0 < c := by
    rcases Nat.eq_zero_or_pos c with h0 | h0
    · rw [h0] at hc; omega
    · exact h0
  unfold size
  rw [mask_two_pow hk, Nat.and_pow_two_sub_one_eq_mod]
  split
  · next h =>
    rw [usub_of_le h (by omega)]
    exact Nat.mod_eq_of_lt (by omega)
  · next h =>
    rw [usub_of_lt (by omega) (by omega)]
    obtain ⟨c', rfl⟩ : ∃ c', c = c' + 1 := ⟨c - 1, by omega⟩
    have h3 : s.write_pos_ + SIZE_MOD - s.read_pos_
        = (s.write_pos_ + 2 ^ k - s.read_pos_) + 2 ^ k * c' := by
      rw [hc, Nat.mul_succ]; omega
    rw [h3, Nat.add_mul_mod_self_left]
    exact Nat.mod_eq_of_lt (by omega)

end Arith

/-! ## One call of `try_push` / `try_pop` on a well-formed buffer -/

section Steps

open RingBuffer

variable {T : Type}

theorem getD_set_ne (l : List T) {i j : Nat} (h : i ≠ j) (a d : T) :
    (l.set i a).getD j d = l.getD j d := by
  simp [List.getD_eq_getElem?_getD, List.getElem?_set, h]

theorem getD_set_eq (l : List T) {i : Nat} (h : i < l.length) (a d : T) :
    (l.set i a).getD i d = a := by
  simp [List.getD_eq_getElem?_getD, List.getElem?_set, h]

/-- The index of the `i`-th live slot is not the write cursor. -/
theorem live_index_ne {S r w i : Nat} (_hr : r < S) (hw : w < S)
    (hi : i < (if r ≤ w then w - r else w + S - r)) : (r + i) % S ≠ w := by
  have h := @mod_of_lt_two_mul (r + i) S (by split at hi <;> omega)
  rw [h]
  split at hi <;> split <;> omega

/-- The slot just past the live ones is the one under the write cursor. -/
theorem live_index_end {S r w : Nat} (hr : r < S) (hw : w < S) :
    (r + (if r ≤ w then w - r else w + S - r)) % S = w := by
  have h := @mod_of_lt_two_mul (r + (if r ≤ w then w - r else w + S - r)) S
    (by split <;> omega)
  rw [h]
  split <;> split <;> omega

theorem wellFormed_new {S : Nat} (hS : 0 < S) {slots : List T} (h : slots.length = S) :
    WellFormed S (RingBuffer.new slots) := ⟨hS, hS, h⟩

theorem size_new {k : Nat} (hk : k < 64) {slots : List T} (h : slots.length = 2 ^ k) :
    size (2 ^ k) (RingBuffer.new slots) = 0 := by
  rw [size_eq hk (wellFormed_new (Nat.two_pow_pos k) h)]
  simp [RingBuffer.new]

theorem size_le {k : Nat} (hk : k < 64) {s : RingBuffer T} (hs : WellFormed (2 ^ k) s) :
    size (2 ^ k) s ≤ 2 ^ k - 1 := by
  rw [size_eq hk hs]
  obtain ⟨hw, hr, -⟩ := hs
  split <;> omega

/-- `try_push` fails exactly on a buffer holding `Size - 1` elements. -/
theorem try_push_false_iff {k : Nat} (hk : k < 64) {s : RingBuffer T}
    (hs : WellFormed (2 ^ k) s) (x : T) :
    (try_push (2 ^ k) s x).1 = false ↔ size (2 ^ k) s = 2 ^ k - 1 := by
  rw [size_eq hk hs]
  obtain ⟨hw, hr, -⟩ := hs
  unfold try_push
  simp only [next_pos_eq hk hw]
  split_ifs <;> (simp only [Bool.false_eq_true, false_iff, true_iff]; omega)

theorem try_push_fail_state (S : Nat) (s : RingBuffer T) (x : T)
    (h : (try_push S s x).1 = false) : (try_push S s x).2 = s := by
  simp only [try_push] at h ⊢
  split_ifs at h ⊢
  simp_all

/-- The state after a successful `try_push`. -/
theorem try_push_ok_state {k : Nat} (hk : k < 64) {s : RingBuffer T}
    (hw : s.write_pos_ < 2 ^ k) (x : T) (h : (try_push (2 ^ k) s x).1 = true) :
    (try_push (2 ^ k) s x).2 =
      { write_pos_ := if s.write_pos_ + 1 < 2 ^ k then s.write_pos_ + 1 else 0,
        read_pos_ := s.read_pos_,
        buffer_ := s.buffer_.set s.write_pos_ x } := by
  simp only [try_push, next_pos_eq hk hw] at h ⊢
  split_ifs at h ⊢ <;> simp_all

theorem try_push_wellFormed {k : Nat} (hk : k < 64) {s : RingBuffer T}
    (hs : WellFormed (2 ^ k) s) (x : T) : WellFormed (2 ^ k) (try_push (2 ^ k) s x).2 := by
  cases h : (try_push (2 ^ k) s x).1
  · rw [try_push_fail_state _ _ _ h]; exact hs
  · obtain ⟨hw, hr, hl⟩ := hs
    have hpos := Nat.two_pow_pos k
    rw [try_push_ok_state hk hw x h]
    refine ⟨?_, hr, ?_⟩
    · show (if s.write_pos_ + 1 < 2 ^ k then s.write_pos_ + 1 else 0) < 2 ^ k
      split <;> omega
    · show (s.buffer_.set s.write_pos_ x).length = 2 ^ k
      rw [List.length_set]; exact hl

theorem try_push_size {k : Nat} (hk : k < 64) {s : RingBuffer T}
    (hs : WellFormed (2 ^ k) s) (x : T) (h : (try_push (2 ^ k) s x).1 = true) :
    size (2 ^ k) (try_push (2 ^ k) s x).2 = size (2 ^ k) s + 1 := by
  have hne : ¬ size (2 ^ k) s = 2 ^ k - 1 := by
    rw [← try_push_false_iff hk hs x, h]; simp
  rw [size_eq hk hs] at hne
  rw [size_eq hk (try_push_wellFormed hk hs x), size_eq hk hs]
  obtain ⟨hw, hr, -⟩ := hs
  rw [try_push_ok_state hk hw x h]
  show (if s.read_pos_ ≤ (if s.write_pos_ + 1 < 2 ^ k then s.write_pos_ + 1 else 0)
      then (if s.write_pos_ + 1 < 2 ^ k then s.write_pos_ + 1 else 0) - s.read_pos_
      else (if s.write_pos_ + 1 < 2 ^ k then s.write_pos_ + 1 else 0) + 2 ^ k - s.read_pos_) = _
  split_ifs at hne ⊢ <;> omega

theorem try_push_contents [Inhabited T] {k : Nat} (hk : k < 64) {s : RingBuffer T}
    (hs : WellFormed (2 ^ k) s) (x : T) (h : (try_push (2 ^ k) s x).1 = true) :
    contents (2 ^ k) (try_push (2 ^ k) s x).2 = contents (2 ^ k) s ++ [x] := by
  unfold contents
  rw [try_push_size hk hs x h, List.range_succ, List.map_append]
  have hsz := size_eq hk hs
  obtain ⟨hw, hr, hl⟩ := hs
  rw [try_push_ok_state hk hw x h]
  show List.map (fun i => (s.buffer_.set s.write_pos_ x).getD ((s.read_pos_ + i) % 2 ^ k) default) _
      ++ List.map (fun i => (s.buffer_.set s.write_pos_ x).getD ((s.read_pos_ + i) % 2 ^ k) default) _
      = _
  congr 1
  · apply List.map_congr_left
    intro i hi
    rw [List.mem_range, hsz] at hi
    exact getD_set_ne _ (Ne.symm (live_index_ne hr hw hi)) _ _
  · rw [hsz]
    simp only [List.map_cons, List.map_nil]
    rw [live_index_end hr hw, getD_set_eq _ (by omega)]

/-- Index of the `i+1`-th live slot, seen from the advanced read cursor. -/
theorem live_index_succ {S r i : Nat} (hr : r < S) (hi : i + 1 < S) :
    ((if r + 1 < S then r + 1 else 0) + i) % S = (r + (i + 1)) % S
      ∧ (r + (i + 1)) % S ≠ r := by
  have h1 := @mod_of_lt_two_mul (r + (i + 1)) S (by omega)
  have h2 := @mod_of_lt_two_mul ((if r + 1 < S then r + 1 else 0) + i) S (by split <;> omega)
  rw [h1, h2]
  constructor
  · split_ifs <;> omega
  · split_ifs <;> omega

/-- `try_pop` fails exactly on a buffer holding no element. -/
theorem try_pop_false_iff [Inhabited T] {k : Nat} (hk : k < 64) {s : RingBuffer T}
    (hs : WellFormed (2 ^ k) s) (moved : T → T) (item : T) :
    (try_pop (2 ^ k) moved s item).1 = false ↔ size (2 ^ k) s = 0 := by
  rw [size_eq hk hs]
  obtain ⟨hw, hr, -⟩ := hs
  simp only [try_pop]
  split_ifs <;> (simp only [Bool.false_eq_true, false_iff, true_iff]; omega)

theorem try_pop_fail_state [Inhabited T] (S : Nat) (moved : T → T) (s : RingBuffer T) (item : T)
    (h : (try_pop S moved s item).1 = false) : (try_pop S moved s item).2 = (s, item) := by
  simp only [try_pop] at h ⊢
  split_ifs at h ⊢
  simp_all

/-- The state and the output argument after a successful `try_pop`. -/
theorem try_pop_ok_state [Inhabited T] {k : Nat} (hk : k < 64) {s : RingBuffer T}
    (hr : s.read_pos_ < 2 ^ k) (moved : T → T) (item : T)
    (h : (try_pop (2 ^ k) moved s item).1 = true) :
    (try_pop (2 ^ k) moved s item).2 =
      ({ write_pos_ := s.write_pos_,
         read_pos_ := if s.read_pos_ + 1 < 2 ^ k then s.read_pos_ + 1 else 0,
         buffer_ := s.buffer_.set s.read_pos_ (moved (s.buffer_.getD s.read_pos_ default)) },
        s.buffer_.getD s.read_pos_ default) := by
  simp only [try_pop, next_pos_eq hk hr] at h ⊢
  split_ifs at h ⊢ <;> simp_all

theorem try_pop_wellFormed [Inhabited T] {k : Nat} (hk : k < 64) {s : RingBuffer T}
    (hs : WellFormed (2 ^ k) s) (moved : T → T) (item : T) :
    WellFormed (2 ^ k) (try_pop (2 ^ k) moved s item).2.1 := by
  cases h : (try_pop (2 ^ k) moved s item).1
  · rw [try_pop_fail_state _ _ _ _ h]; exact hs
  · obtain ⟨hw, hr, hl⟩ := hs
    have hpos := Nat.two_pow_pos k
    rw [try_pop_ok_state hk hr moved item h]
    refine ⟨hw, ?_, ?_⟩
    · show (if s.read_pos_ + 1 < 2 ^ k then s.read_pos_ + 1 else 0) < 2 ^ k
      split <;> omega
    · show (s.buffer_.set s.read_pos_ _).length = 2 ^ k
      rw [List.length_set]; exact hl

theorem try_pop_size [Inhabited T] {k : Nat} (hk : k < 64) {s : RingBuffer T}
    (hs : WellFormed (2 ^ k) s) (moved : T → T) (item : T)
    (h : (try_pop (2 ^ k) moved s item).1 = true) :
    size (2 ^ k) (try_pop (2 ^ k) moved s item).2.1 + 1 = size (2 ^ k) s := by
  have hne : ¬ size (2 ^ k) s = 0 := by
    rw [← try_pop_false_iff hk hs moved item, h]; simp
  rw [size_eq hk hs] at hne
  rw [size_eq hk (try_pop_wellFormed hk hs moved item), size_eq hk hs]
  obtain ⟨hw, hr, -⟩ := hs
  rw [try_pop_ok_state hk hr moved item h]
  show (if (if s.read_pos_ + 1 < 2 ^ k then s.read_pos_ + 1 else 0) ≤ s.write_pos_
      then s.write_pos_ - (if s.read_pos_ + 1 < 2 ^ k then s.read_pos_ + 1 else 0)
      else s.write_pos_ + 2 ^ k - (if s.read_pos_ + 1 < 2 ^ k then s.read_pos_ + 1 else 0)) + 1 = _
  split_ifs at hne ⊢ <;> omega

/-- A successful `try_pop` hands out the oldest live element and leaves the
others in place. -/
theorem try_pop_contents [Inhabited T] {k : Nat} (hk : k < 64) {s : RingBuffer T}
    (hs : WellFormed (2 ^ k) s) (moved : T → T) (item : T)
    (h : (try_pop (2 ^ k) moved s item).1 = true) :
    contents (2 ^ k) s
      = (try_pop (2 ^ k) moved s item).2.2 :: contents (2 ^ k) (try_pop (2 ^ k) moved s item).2.1 := by
  have hsz := try_pop_size hk hs moved item h
  have hle := size_le hk hs
  unfold contents
  rw [← hsz, List.range_succ_eq_map, List.map_cons, List.map_map]
  obtain ⟨hw, hr, hl⟩ := hs
  have hpos := Nat.two_pow_pos k
  rw [try_pop_ok_state hk hr moved item h] at hsz ⊢
  simp only [Nat.add_zero, Nat.mod_eq_of_lt hr] at hsz ⊢
  congr 1
  apply List.map_congr_left
  intro i hi
  rw [List.mem_range] at hi
  obtain ⟨e1, e2⟩ := @live_index_succ (2 ^ k) s.read_pos_ i hr (by omega)
  simp only [Function.comp, Nat.succ_eq_add_one]
  rw [e1, getD_set_ne _ (Ne.symm e2)]

end Steps

/-! ## Sequences of calls -/

section Runs

open RingBuffer

variable {T : Type}

theorem step_wellFormed [Inhabited T] {k : Nat} (hk : k < 64) (moved : T → T)
    {s : RingBuffer T} (hs : WellFormed (2 ^ k) s) (op : Op T) :
    WellFormed (2 ^ k) (step (2 ^ k) moved s op) := by
  cases op with
  | push x => exact try_push_wellFormed hk hs x
  | pop item => exact try_pop_wellFormed hk hs moved item

theorem run_wellFormed [Inhabited T] {k : Nat} (hk : k < 64) (moved : T → T)
    (ops : List (Op T)) {s : RingBuffer T} (hs : WellFormed (2 ^ k) s) :
    WellFormed (2 ^ k) (run (2 ^ k) moved s ops) := by
  induction ops generalizing s with
  | nil => exact hs
  | cons op ops ih => exact ih (step_wellFormed hk moved hs op)

/-- Every state reached from construction is well-formed. -/
theorem reachable_wellFormed [Inhabited T] {k : Nat} (hk : k < 64) (moved : T → T)
    {slots : List T} (hslots : slots.length = 2 ^ k) (ops : List (Op T)) :
    WellFormed (2 ^ k) (run (2 ^ k) moved (RingBuffer.new slots) ops) :=
  run_wellFormed hk moved ops (wellFormed_new (Nat.two_pow_pos k) hslots)

theorem length_contents [Inhabited T] (S : Nat) (s : RingBuffer T) :
    (contents S s).length = size S s := by
  simp [contents]

theorem empty_iff_size [Inhabited T] {k : Nat} (hk : k < 64) {s : RingBuffer T}
    (hs : WellFormed (2 ^ k) s) : empty s = true ↔ size (2 ^ k) s = 0 := by
  rw [size_eq hk hs]
  obtain ⟨hw, hr, -⟩ := hs
  simp only [empty, beq_iff_eq]
  split <;> omega

/-- Pushing `xs` into a buffer with room for all of them. -/
theorem push_all_spec [Inhabited T] {k : Nat} (hk : k < 64) (xs : List T) {s : RingBuffer T}
    (hs : WellFormed (2 ^ k) s) (hroom : size (2 ^ k) s + xs.length ≤ 2 ^ k - 1) :
    (push_all (2 ^ k) s xs).1 = List.replicate xs.length true
      ∧ WellFormed (2 ^ k) (push_all (2 ^ k) s xs).2
      ∧ contents (2 ^ k) (push_all (2 ^ k) s xs).2 = contents (2 ^ k) s ++ xs := by
  induction xs generalizing s with
  | nil => simp [push_all, hs]
  | cons x xs ih =>
    simp only [List.length_cons] at hroom
    have hok : (try_push (2 ^ k) s x).1 = true := by
      cases h : (try_push (2 ^ k) s x).1
      · rw [try_push_false_iff hk hs x] at h; omega
      · rfl
    have hsz := try_push_size hk hs x hok
    obtain ⟨h1, h2, h3⟩ := @ih (try_push (2 ^ k) s x).2 (try_push_wellFormed hk hs x) (by omega)
    refine ⟨?_, h2, ?_⟩
    · simp only [push_all, List.length_cons, List.replicate_succ, h1, hok]
    · simp only [push_all]
      rw [h3, try_push_contents hk hs x hok, List.append_assoc, List.singleton_append]

/-- Popping `n` of the elements held by a buffer. -/
theorem pop_n_spec [Inhabited T] {k : Nat} (hk : k < 64) (moved : T → T) (item : T) (n : Nat)
    {s : RingBuffer T} (hs : WellFormed (2 ^ k) s) (hn : n ≤ size (2 ^ k) s) :
    (pop_n (2 ^ k) moved item s n).1 = ((contents (2 ^ k) s).take n).map (fun x => (true, x))
      ∧ WellFormed (2 ^ k) (pop_n (2 ^ k) moved item s n).2
      ∧ contents (2 ^ k) (pop_n (2 ^ k) moved item s n).2 = (contents (2 ^ k) s).drop n := by
  induction n generalizing s with
  | zero => simp [pop_n, hs]
  | succ n ih =>
    have hok : (try_pop (2 ^ k) moved s item).1 = true := by
      cases h : (try_pop (2 ^ k) moved s item).1
      · rw [try_pop_false_iff hk hs moved item] at h; omega
      · rfl
    have hsz := try_pop_size hk hs moved item hok
    have hc := try_pop_contents hk hs moved item hok
    obtain ⟨h1, h2, h3⟩ :=
      @ih (try_pop (2 ^ k) moved s item).2.1 (try_pop_wellFormed hk hs moved item) (by omega)
    refine ⟨?_, h2, ?_⟩
    · simp only [pop_n, h1, hok, hc, List.take_succ_cons, List.map_cons]
    · simp only [pop_n]
      rw [h3, hc, List.drop_succ_cons]

/-- Successful pushes and pops account for the change of `size()`. -/
theorem run_size_count [Inhabited T] {k : Nat} (hk : k < 64) (moved : T → T)
    (ops : List (Op T)) {s : RingBuffer T} (hs : WellFormed (2 ^ k) s) :
    size (2 ^ k) (run (2 ^ k) moved s ops) + pops_ok (2 ^ k) moved s ops
      = size (2 ^ k) s + pushes_ok (2 ^ k) moved s ops := by
  induction ops generalizing s with
  | nil => simp [run, pops_ok, pushes_ok]
  | cons op ops ih =>
    cases op with
    | push x =>
      have h := @ih (try_push (2 ^ k) s x).2 (try_push_wellFormed hk hs x)
      simp only [run, step, pops_ok, pushes_ok]
      cases hok : (try_push (2 ^ k) s x).1
      · rw [try_push_fail_state _ _ _ hok] at h ⊢
        simp only [Bool.false_eq_true, if_false]; omega
      · have := try_push_size hk hs x hok
        simp only [if_true]; omega
    | pop item =>
      have h := @ih (try_pop (2 ^ k) moved s item).2.1 (try_pop_wellFormed hk hs moved item)
      simp only [run, step, pops_ok, pushes_ok]
      cases hok : (try_pop (2 ^ k) moved s item).1
      · rw [try_pop_fail_state _ _ _ _ hok] at h ⊢
        simp only [Bool.false_eq_true, if_false] at h ⊢; omega
      · have := try_pop_size hk hs moved item hok
        simp only [if_true]; omega

/-- The value of `size()` is the cursor difference reduced modulo `Size`. -/
theorem size_eq_emod {k : Nat} (hk : k < 64) {s : RingBuffer T} (hs : WellFormed (2 ^ k) s) :
    (size (2 ^ k) s : Int) = ((s.write_pos_ : Int) - (s.read_pos_ : Int)) % ((2 ^ k : Nat) : Int) := by
  rw [size_eq hk hs]
  obtain ⟨hw, hr, -⟩ := hs
  split
  · next h =>
    rw [Int.emod_eq_of_lt (by omega) (by omega)]
    omega
  · next h =>
    have h2 : ((s.write_pos_ : Int) - (s.read_pos_ : Int))
        = ((s.write_pos_ + 2 ^ k - s.read_pos_ : Nat) : Int) + (-1) * ((2 ^ k : Nat) : Int) := by
      omega
    rw [h2, Int.add_mul_emod_self, Int.emod_eq_of_lt (by omega) (by omega)]

end Runs

/-! ## The logger's buffer and its drain loops -/

section LoggerSteps

open RingBuffer AsyncLogger

theorem format_all_append (a b : List LogEntry) :
    format_all (a ++ b) = format_all a ++ format_all b := by
  simp [format_all]

theorem format_all_cons (e : LogEntry) (es : List LogEntry) :
    format_all (e :: es) = format_entry e ++ format_all es := by
  simp [format_all]

theorem buffer_contents_nil {b : RingBuffer LogEntry} (h : size BUFFER_SIZE b = 0) :
    contents BUFFER_SIZE b = [] := by
  apply List.eq_nil_of_length_eq_zero
  rw [length_contents, h]

/-- With nothing in the buffer, the file holds what it will hold. -/
theorem eventual_content_of_empty {s : AsyncLogger} (h : size BUFFER_SIZE s.buffer_ = 0) :
    eventual_content s = s.content := by
  unfold eventual_content
  rw [buffer_contents_nil h]
  cases s.stream_failed <;> simp [format_all]

theorem wellFormed_logger_new {slots : List LogEntry} (h : slots.length = BUFFER_SIZE) :
    WellFormed BUFFER_SIZE (RingBuffer.new slots) :=
  wellFormed_new (by decide) h

theorem consistent_new {slots : List LogEntry} (h : slots.length = BUFFER_SIZE)
    (content : List Char) : Consistent (AsyncLogger.new slots content) := by
  refine ⟨wellFormed_logger_new h, ?_, ?_⟩
  · intro hr; simp [AsyncLogger.new] at hr
  · intro _
    exact ⟨@size_new LogEntry 11 (by decide) slots h, rfl, rfl⟩

theorem eventual_content_new {slots : List LogEntry} (h : slots.length = BUFFER_SIZE)
    (content : List Char) : eventual_content (AsyncLogger.new slots content) = content := by
  have h0 : size BUFFER_SIZE (AsyncLogger.new slots content).buffer_ = 0 :=
    @size_new LogEntry 11 (by decide) slots h
  rw [eventual_content_of_empty h0]
  rfl

/-- One successful turn of a drain loop: an entry leaves the buffer and its line
is passed to the stream, reaching the file unless the stream has failed. -/
theorem drain_turn {s : AsyncLogger} (hwf : WellFormed BUFFER_SIZE s.buffer_)
    (hfile : s.file_ = true)
    (h : (try_pop BUFFER_SIZE id s.buffer_ default).1 = true) :
    WellFormed BUFFER_SIZE
        (write_entry (try_pop BUFFER_SIZE id s.buffer_ default).2.2
          { s with buffer_ := (try_pop BUFFER_SIZE id s.buffer_ default).2.1 }).buffer_
      ∧ size BUFFER_SIZE
          (write_entry (try_pop BUFFER_SIZE id s.buffer_ default).2.2
            { s with buffer_ := (try_pop BUFFER_SIZE id s.buffer_ default).2.1 }).buffer_ + 1
        = size BUFFER_SIZE s.buffer_
      ∧ eventual_content
          (write_entry (try_pop BUFFER_SIZE id s.buffer_ default).2.2
            { s with buffer_ := (try_pop BUFFER_SIZE id s.buffer_ default).2.1 })
        = eventual_content s
      ∧ (write_entry (try_pop BUFFER_SIZE id s.buffer_ default).2.2
            { s with buffer_ := (try_pop BUFFER_SIZE id s.buffer_ default).2.1 })
        = { s with buffer_ := (try_pop BUFFER_SIZE id s.buffer_ default).2.1,
                   inserted := s.inserted
                     ++ format_entry (try_pop BUFFER_SIZE id s.buffer_ default).2.2,
                   content := if s.stream_failed then s.content
                     else s.content
                       ++ format_entry (try_pop BUFFER_SIZE id s.buffer_ default).2.2 } := by
  have h1 : WellFormed BUFFER_SIZE (try_pop BUFFER_SIZE id s.buffer_ default).2.1 :=
    @try_pop_wellFormed LogEntry _ 11 (by decide) s.buffer_ hwf id default
  have h2 : size BUFFER_SIZE (try_pop BUFFER_SIZE id s.buffer_ default).2.1 + 1
      = size BUFFER_SIZE s.buffer_ :=
    @try_pop_size LogEntry _ 11 (by decide) s.buffer_ hwf id default h
  have h3 : contents BUFFER_SIZE s.buffer_
      = (try_pop BUFFER_SIZE id s.buffer_ default).2.2
        :: contents BUFFER_SIZE (try_pop BUFFER_SIZE id s.buffer_ default).2.1 :=
    @try_pop_contents LogEntry _ 11 (by decide) s.buffer_ hwf id default h
  have h4 : write_entry (try_pop BUFFER_SIZE id s.buffer_ default).2.2
        { s with buffer_ := (try_pop BUFFER_SIZE id s.buffer_ default).2.1 }
      = { s with buffer_ := (try_pop BUFFER_SIZE id s.buffer_ default).2.1,
                 inserted := s.inserted
                   ++ format_entry (try_pop BUFFER_SIZE id s.buffer_ default).2.2,
                 content := if s.stream_failed then s.content
                   else s.content
                     ++ format_entry (try_pop BUFFER_SIZE id s.buffer_ default).2.2 } := by
    simp [write_entry, hfile]
  rw [h4]
  refine ⟨h1, h2, ?_, rfl⟩
  simp only [eventual_content]
  rw [h3, format_all_cons]
  cases s.stream_failed
  · simp only [Bool.false_eq_true, if_false, List.append_assoc]
  · simp only [if_true]

/-- A failed turn of a drain loop finds the buffer without elements. -/
theorem drain_done {s : AsyncLogger} (hwf : WellFormed BUFFER_SIZE s.buffer_)
    (h : (try_pop BUFFER_SIZE id s.buffer_ default).1 = false) :
    size BUFFER_SIZE s.buffer_ = 0 :=
  (@try_pop_false_iff LogEntry _ 11 (by decide) s.buffer_ hwf id default).1 h

/-- The turns the background thread takes while `stop` waits in `join` keep the
buffer well-formed and pass entries of the buffer to the stream. -/
theorem worker_exit_spec (k : Nat) {s : AsyncLogger}
    (hwf : WellFormed BUFFER_SIZE s.buffer_) (hfile : s.file_ = true) :
    WellFormed BUFFER_SIZE (worker_exit k s).buffer_
      ∧ eventual_content (worker_exit k s) = eventual_content s
      ∧ (worker_exit k s).file_ = true
      ∧ (worker_exit k s).running_ = s.running_
      ∧ (worker_exit k s).spawned = s.spawned := by
  induction k generalizing s with
  | zero => exact ⟨hwf, rfl, hfile, rfl, rfl⟩
  | succ k ih =>
    cases h : (try_pop BUFFER_SIZE id s.buffer_ default).1
    · have e : worker_exit (k + 1) s = s := by simp [worker_exit, h]
      rw [e]
      exact ⟨hwf, rfl, hfile, rfl, rfl⟩
    · have e : worker_exit (k + 1) s
          = worker_exit k (write_entry (try_pop BUFFER_SIZE id s.buffer_ default).2.2
              { s with buffer_ := (try_pop BUFFER_SIZE id s.buffer_ default).2.1 }) := by
        simp only [worker_exit, h, if_true]
      rw [e]
      obtain ⟨h1, -, h3, h4⟩ := drain_turn hwf hfile h
      have ih1 := @ih (write_entry (try_pop BUFFER_SIZE id s.buffer_ default).2.2
          { s with buffer_ := (try_pop BUFFER_SIZE id s.buffer_ default).2.1 }) h1
        (by rw [h4]; exact hfile)
      obtain ⟨i1, i2, i3, i4, i5⟩ := ih1
      refine ⟨i1, i2.trans h3, i3, ?_, ?_⟩
      · rw [i4, h4]
      · rw [i5, h4]

/-- With more fuel than elements in the buffer, the loop of `flush_remaining`
ends: the buffer is empty, every line has been passed to the stream, nothing
else changed. -/
theorem flush_remaining_loop_spec (fuel : Nat) {s : AsyncLogger}
    (hwf : WellFormed BUFFER_SIZE s.buffer_) (hfile : s.file_ = true)
    (hfuel : size BUFFER_SIZE s.buffer_ < fuel) :
    ∃ s1, flush_remaining_loop fuel s = some s1
      ∧ WellFormed BUFFER_SIZE s1.buffer_
      ∧ size BUFFER_SIZE s1.buffer_ = 0
      ∧ s1.content = eventual_content s
      ∧ s1.file_ = true ∧ s1.running_ = s.running_ ∧ s1.thread_ = s.thread_
      ∧ s1.spawned = s.spawned := by
  induction fuel generalizing s with
  | zero => omega
  | succ fuel ih =>
    cases h : (try_pop BUFFER_SIZE id s.buffer_ default).1
    · have e : flush_remaining_loop (fuel + 1) s = some s := by
        simp [flush_remaining_loop, h]
      have h0 := drain_done hwf h
      exact ⟨s, e, hwf, h0, (eventual_content_of_empty h0).symm, hfile, rfl, rfl, rfl⟩
    · have e : flush_remaining_loop (fuel + 1) s
          = flush_remaining_loop fuel
              (write_entry (try_pop BUFFER_SIZE id s.buffer_ default).2.2
                { s with buffer_ := (try_pop BUFFER_SIZE id s.buffer_ default).2.1 }) := by
        simp only [flush_remaining_loop, h, if_true]
      rw [e]
      obtain ⟨h1, h2, h3, h4⟩ := drain_turn hwf hfile h
      obtain ⟨s1, e1, e2, e3, e4, e5, e6, e7, e8⟩ :=
        @ih (write_entry (try_pop BUFFER_SIZE id s.buffer_ default).2.2
          { s with buffer_ := (try_pop BUFFER_SIZE id s.buffer_ default).2.1 }) h1
        (by rw [h4]; exact hfile) (by omega)
      refine ⟨s1, e1, e2, e3, e4.trans h3, e5, ?_, ?_, ?_⟩
      · rw [e6, h4]
      · rw [e7, h4]
      · rw [e8, h4]

end LoggerSteps

/-! ## Events of the logger -/

section LoggerEvents

open RingBuffer AsyncLogger

theorem start_spec (open_ok : Bool) {s : AsyncLogger} (hs : Consistent s) :
    Consistent (start open_ok s) ∧ eventual_content (start open_ok s) = eventual_content s := by
  obtain ⟨b, r, t, f, c, n, x, i⟩ := s
  obtain ⟨hwf, hrun, hstop⟩ := hs
  cases r
  · obtain ⟨h0, hf, ht⟩ := hstop rfl
    simp only at h0 hf ht hwf
    subst hf
    have hev : ∀ (r1 t1 f1 x1 : Bool) (n1 : Nat),
        eventual_content
          ({ buffer_ := b, running_ := r1, thread_ := t1, file_ := f1, content := c,
             spawned := n1, stream_failed := x1, inserted := i } : AsyncLogger) = c :=
      fun _ _ _ _ _ => eventual_content_of_empty h0
    cases open_ok
    · refine ⟨⟨hwf, ?_, ?_⟩, (hev _ _ _ _ _).trans (hev _ _ _ _ _).symm⟩
      · intro h; simp [start] at h
      · intro _; exact ⟨h0, rfl, ht⟩
    · refine ⟨⟨hwf, ?_, ?_⟩, (hev _ _ _ _ _).trans (hev _ _ _ _ _).symm⟩
      · intro _; exact ⟨rfl, rfl⟩
      · intro h; simp [start] at h
  · exact ⟨⟨hwf, hrun, hstop⟩, rfl⟩

/-- A `start` leaves a running logger with a stream that writes. -/
theorem start_writable (open_ok : Bool) {s : AsyncLogger} (hs : Consistent s)
    (hg : Writable s) : Writable (start open_ok s) := by
  obtain ⟨b, r, t, f, c, n, x, i⟩ := s
  cases r
  · have hf : f = false := (hs.2.2 rfl).2.1
    subst hf
    cases open_ok
    · intro h; simp [start] at h
    · intro _; rfl
  · exact hg

theorem log_spec (msg : List Char) (now : Int) (entry0 : LogEntry) {s : AsyncLogger}
    (hs : Consistent s) :
    Consistent (log msg now entry0 s).2
      ∧ (Writable s →
          eventual_content (log msg now entry0 s).2
            = eventual_content s
              ++ (if (log msg now entry0 s).1 then format_entry (log_entry msg now entry0)
                  else []))
      ∧ (log msg now entry0 s).2.running_ = s.running_ := by
  obtain ⟨hwf, hrun, hstop⟩ := hs
  cases hr : s.running_
  · have e : log msg now entry0 s = (false, s) := by simp [log, hr]
    rw [e]
    refine ⟨⟨hwf, hrun, hstop⟩, ?_, hr⟩
    intro _
    simp
  · have e : log msg now entry0 s
        = ((try_push BUFFER_SIZE s.buffer_ (log_entry msg now entry0)).1,
            { s with buffer_ := (try_push BUFFER_SIZE s.buffer_ (log_entry msg now entry0)).2 }) := by
      simp [log, hr]
    rw [e]
    have hwf1 : WellFormed BUFFER_SIZE (try_push BUFFER_SIZE s.buffer_ (log_entry msg now entry0)).2 :=
      @try_push_wellFormed LogEntry 11 (by decide) s.buffer_ hwf _
    refine ⟨⟨hwf1, hrun, ?_⟩, ?_, hr⟩
    · intro h
      have h1 : s.running_ = false := h
      rw [hr] at h1
      exact absurd h1 (by decide)
    · intro hg
      have hx : s.stream_failed = false := hg hr
      cases hp : (try_push BUFFER_SIZE s.buffer_ (log_entry msg now entry0)).1
      · simp only [Bool.false_eq_true, if_false, List.append_nil]
        rw [try_push_fail_state _ _ _ hp]
      · have hc : contents BUFFER_SIZE (try_push BUFFER_SIZE s.buffer_ (log_entry msg now entry0)).2
            = contents BUFFER_SIZE s.buffer_ ++ [log_entry msg now entry0] :=
          @try_push_contents LogEntry _ 11 (by decide) s.buffer_ hwf _ hp
        simp only [eventual_content, if_true, hx, Bool.false_eq_true, if_false]
        rw [hc, format_all_append, format_all_cons, List.append_assoc]
        simp [format_all]

theorem log_stream_failed (msg : List Char) (now : Int) (entry0 : LogEntry) (s : AsyncLogger) :
    (log msg now entry0 s).2.stream_failed = s.stream_failed := by
  unfold log
  split <;> rfl

theorem worker_step_spec {s : AsyncLogger} (hs : Consistent s) :
    Consistent (worker_step s) ∧ eventual_content (worker_step s) = eventual_content s
      ∧ (worker_step s).running_ = s.running_ := by
  obtain ⟨hwf, hrun, hstop⟩ := hs
  cases ht : s.thread_
  · have e : worker_step s = s := by simp [worker_step, ht]
    rw [e]
    exact ⟨⟨hwf, hrun, hstop⟩, rfl, rfl⟩
  · have hr : s.running_ = true := by
      cases h : s.running_
      · rw [(hstop h).2.2] at ht
        exact absurd ht (by decide)
      · rfl
    have hf := (hrun hr).1
    cases hp : (try_pop BUFFER_SIZE id s.buffer_ default).1
    · have e : worker_step s = s := by simp [worker_step, ht, hp]
      rw [e]
      exact ⟨⟨hwf, hrun, hstop⟩, rfl, rfl⟩
    · have e : worker_step s
          = write_entry (try_pop BUFFER_SIZE id s.buffer_ default).2.2
              { s with buffer_ := (try_pop BUFFER_SIZE id s.buffer_ default).2.1 } := by
        simp [worker_step, ht, hp]
      obtain ⟨h1, -, h3, h4⟩ := drain_turn hwf hf hp
      rw [e]
      refine ⟨⟨h1, ?_, ?_⟩, h3, ?_⟩
      · intro _; rw [h4]; exact ⟨hf, ht⟩
      · intro h; rw [h4] at h
        have h5 : s.running_ = false := h
        rw [hr] at h5
        exact absurd h5 (by decide)
      · rw [h4]

theorem worker_step_stream_failed (s : AsyncLogger) :
    (worker_step s).stream_failed = s.stream_failed := by
  unfold worker_step
  split
  · rfl
  · simp only
    split
    · unfold write_entry
      split <;> rfl
    · rfl

/-- The device refusing a write changes neither the buffer nor the state of the
logger. -/
theorem io_error_spec {s : AsyncLogger} (hs : Consistent s) :
    Consistent (io_error s) ∧ (io_error s).running_ = s.running_ := by
  unfold io_error
  split
  · exact ⟨hs, rfl⟩
  · exact ⟨hs, rfl⟩

/-- With fuel for a full buffer `stop` returns; the logger is then stopped with
every entry of the buffer passed to the stream. -/
theorem stop_spec (fuel k : Nat) (hfuel : BUFFER_SIZE ≤ fuel) {s : AsyncLogger}
    (hs : Consistent s) :
    ∃ s1, stop fuel k s = some s1 ∧ Consistent s1 ∧ s1.running_ = false
      ∧ eventual_content s1 = eventual_content s ∧ s1.spawned = s.spawned := by
  obtain ⟨hwf, hrun, hstop⟩ := hs
  cases hr : s.running_
  · exact ⟨s, by simp [stop, hr], ⟨hwf, hrun, hstop⟩, hr, rfl, rfl⟩
  · obtain ⟨hf, ht⟩ := hrun hr
    obtain ⟨b, r, t, f, c, n, x, i⟩ := s
    simp only at hr hf ht hwf
    subst hr hf ht
    obtain ⟨w1, w2, w3, w4, w5⟩ :=
      @worker_exit_spec k
        { buffer_ := b, running_ := false, thread_ := true, file_ := true, content := c,
          spawned := n, stream_failed := x, inserted := i } hwf rfl
    have hle : size BUFFER_SIZE (worker_exit k
        { buffer_ := b, running_ := false, thread_ := true, file_ := true, content := c,
          spawned := n, stream_failed := x, inserted := i }).buffer_ ≤ 2 ^ 11 - 1 :=
      @size_le LogEntry 11 (by decide) _ w1
    obtain ⟨s3, e1, e2, e3, e4, e5, e6, e7, e8⟩ :=
      @flush_remaining_loop_spec fuel
        { worker_exit k
            { buffer_ := b, running_ := false, thread_ := true, file_ := true, content := c,
              spawned := n, stream_failed := x, inserted := i } with thread_ := false } w1 w3
        (by have h2048 : BUFFER_SIZE = 2048 := rfl
            have hb : size BUFFER_SIZE ({ worker_exit k
                { buffer_ := b, running_ := false, thread_ := true, file_ := true, content := c,
                  spawned := n, stream_failed := x, inserted := i } with
                thread_ := false } : AsyncLogger).buffer_ ≤ 2 ^ 11 - 1 := hle
            omega)
    have e : stop fuel k
          { buffer_ := b, running_ := true, thread_ := true, file_ := true, content := c,
            spawned := n, stream_failed := x, inserted := i }
        = some (if s3.file_ then { s3 with file_ := false } else s3) :=
      congrArg (fun o : Option AsyncLogger =>
        match o with
        | none => none
        | some s3 => some (if s3.file_ then { s3 with file_ := false } else s3)) e1
    rw [if_pos e5] at e
    refine ⟨{ s3 with file_ := false }, e, ⟨e2, ?_, ?_⟩, ?_, ?_, ?_⟩
    · intro h
      have h1 : s3.running_ = true := h
      rw [e6] at h1
      have h2 : (worker_exit k
          { buffer_ := b, running_ := false, thread_ := true, file_ := true, content := c,
            spawned := n, stream_failed := x, inserted := i }).running_ = true := h1
      rw [w4] at h2
      exact Bool.noConfusion h2
    · intro _
      exact ⟨e3, rfl, e7⟩
    · show s3.running_ = false
      rw [e6]
      exact w4
    · have c1 : eventual_content ({ s3 with file_ := false } : AsyncLogger) = s3.content :=
        @eventual_content_of_empty ({ s3 with file_ := false } : AsyncLogger) e3
      have c2 : eventual_content ({ worker_exit k
            { buffer_ := b, running_ := false, thread_ := true, file_ := true, content := c,
              spawned := n, stream_failed := x, inserted := i } with
            thread_ := false } : AsyncLogger)
          = eventual_content (worker_exit k
            { buffer_ := b, running_ := false, thread_ := true, file_ := true, content := c,
              spawned := n, stream_failed := x, inserted := i }) := rfl
      rw [c1, e4, c2]
      exact w2
    · show s3.spawned = n
      rw [e8]
      exact w5

theorem accepted_cons (fuel : Nat) (s : AsyncLogger) (e : Event) (es : List Event) :
    accepted fuel s (e :: es)
      = accepted fuel s [e]
        ++ (match AsyncLogger.apply fuel s e with
            | none => []
            | some s1 => accepted fuel s1 es) := by
  cases e with
  | start open_ok =>
    simp only [accepted]
    cases AsyncLogger.apply fuel s (Event.start open_ok) <;> simp
  | stop k =>
    simp only [accepted]
    cases AsyncLogger.apply fuel s (Event.stop k) <;> simp
  | log msg now entry0 =>
    simp only [accepted]
    cases AsyncLogger.apply fuel s (Event.log msg now entry0) <;> split_ifs <;> simp
  | worker =>
    simp only [accepted]
    cases AsyncLogger.apply fuel s Event.worker <;> simp
  | io_error =>
    simp only [accepted]
    cases AsyncLogger.apply fuel s Event.io_error <;> simp

theorem accepted_single (fuel : Nat) (s : AsyncLogger) (e : Event) :
    accepted fuel s [e]
      = match e with
        | .log msg now entry0 =>
            if (log msg now entry0 s).1 then [log_entry msg now entry0] else []
        | _ => [] := by
  cases e with
  | start open_ok =>
    simp only [accepted]
    cases AsyncLogger.apply fuel s (Event.start open_ok) <;> rfl
  | stop k =>
    simp only [accepted]
    cases AsyncLogger.apply fuel s (Event.stop k) <;> rfl
  | log msg now entry0 =>
    simp only [accepted]
    cases AsyncLogger.apply fuel s (Event.log msg now entry0) <;> rfl
  | worker =>
    simp only [accepted]
    cases AsyncLogger.apply fuel s Event.worker <;> rfl
  | io_error =>
    simp only [accepted]
    cases AsyncLogger.apply fuel s Event.io_error <;> rfl

/-- One event on a consistent logger: it returns and keeps the logger
consistent. -/
theorem apply_consistent (fuel : Nat) (hfuel : BUFFER_SIZE ≤ fuel) (e : Event)
    {s : AsyncLogger} (hs : Consistent s) :
    ∃ s1, AsyncLogger.apply fuel s e = some s1 ∧ Consistent s1 := by
  cases e with
  | start open_ok => exact ⟨_, rfl, (start_spec open_ok hs).1⟩
  | stop k =>
    obtain ⟨s1, h1, h2, -⟩ := stop_spec fuel k hfuel hs
    exact ⟨s1, h1, h2⟩
  | log msg now entry0 => exact ⟨_, rfl, (log_spec msg now entry0 hs).1⟩
  | worker => exact ⟨_, rfl, (worker_step_spec hs).1⟩
  | io_error => exact ⟨_, rfl, (io_error_spec hs).1⟩

/-- Every sequence of events on a consistent logger runs to its end and keeps
the logger consistent. -/
theorem exec_consistent (fuel : Nat) (hfuel : BUFFER_SIZE ≤ fuel) (es : List Event)
    {s : AsyncLogger} (hs : Consistent s) :
    ∃ s1, exec fuel s es = some s1 ∧ Consistent s1 := by
  induction es generalizing s with
  | nil => exact ⟨s, rfl, hs⟩
  | cons e es ih =>
    obtain ⟨s1, h1, h2⟩ := apply_consistent fuel hfuel e hs
    obtain ⟨s2, i1, i2⟩ := @ih s1 h2
    exact ⟨s2, by simp only [exec, h1, i1], i2⟩

/-- One event other than a refused write, on a consistent logger whose stream
writes: the stream still writes, and the eventual content of the file grows by
the line of the entry of an accepted `log` call and by nothing else. -/
theorem apply_spec (fuel : Nat) (hfuel : BUFFER_SIZE ≤ fuel) (e : Event)
    (he : e ≠ Event.io_error) {s : AsyncLogger} (hs : Consistent s) (hg : Writable s) :
    ∃ s1, AsyncLogger.apply fuel s e = some s1 ∧ Consistent s1 ∧ Writable s1
      ∧ eventual_content s1 = eventual_content s ++ format_all (accepted fuel s [e]) := by
  cases e with
  | start open_ok =>
    obtain ⟨h1, h2⟩ := start_spec open_ok hs
    exact ⟨_, rfl, h1, start_writable open_ok hs hg,
      by simp [accepted_single, format_all, h2]⟩
  | stop k =>
    obtain ⟨s1, h1, h2, h3, h4, -⟩ := stop_spec fuel k hfuel hs
    refine ⟨s1, h1, h2, ?_, by simp [accepted_single, format_all, h4]⟩
    intro h
    rw [h3] at h
    exact Bool.noConfusion h
  | log msg now entry0 =>
    obtain ⟨h1, h2, h3⟩ := log_spec msg now entry0 hs
    refine ⟨_, rfl, h1, ?_, ?_⟩
    · intro h
      rw [log_stream_failed]
      exact hg (h3 ▸ h)
    · rw [h2 hg, accepted_single]
      cases hl : (log msg now entry0 s).1 <;> simp [format_all, hl]
  | worker =>
    obtain ⟨h1, h2, h3⟩ := worker_step_spec hs
    refine ⟨_, rfl, h1, ?_, by simp [accepted_single, format_all, h2]⟩
    intro h
    rw [worker_step_stream_failed]
    exact hg (h3 ▸ h)
  | io_error => exact absurd rfl he

/-- Every sequence of events without a refused write, on a consistent logger
whose stream writes, runs to its end and adds to the eventual content of the
file exactly the lines of the accepted entries, in the order of their `log`
calls. -/
theorem exec_spec (fuel : Nat) (hfuel : BUFFER_SIZE ≤ fuel) (es : List Event)
    (hio : ∀ e ∈ es, e ≠ Event.io_error) {s : AsyncLogger} (hs : Consistent s)
    (hg : Writable s) :
    ∃ s1, exec fuel s es = some s1 ∧ Consistent s1 ∧ Writable s1
      ∧ eventual_content s1 = eventual_content s ++ format_all (accepted fuel s es) := by
  induction es generalizing s with
  | nil => exact ⟨s, rfl, hs, hg, by simp [accepted, format_all]⟩
  | cons e es ih =>
    obtain ⟨s1, h1, h2, h3, h4⟩ :=
      apply_spec fuel hfuel e (hio e (List.mem_cons_self _ _)) hs hg
    obtain ⟨s2, i1, i2, i3, i4⟩ :=
      @ih (fun e he => hio e (List.mem_cons_of_mem _ he)) s1 h2 h3
    refine ⟨s2, ?_, i2, i3, ?_⟩
    · simp only [exec, h1, i1]
    · rw [i4, h4, accepted_cons fuel s e es, h1, format_all_append, List.append_assoc]

theorem exec_append (fuel : Nat) (s : AsyncLogger) (es fs : List Event) :
    exec fuel s (es ++ fs)
      = match exec fuel s es with
        | none => none
        | some s1 => exec fuel s1 fs := by
  induction es generalizing s with
  | nil => simp [exec]
  | cons e es ih =>
    simp only [List.cons_append, exec]
    cases AsyncLogger.apply fuel s e with
    | none => rfl
    | some s1 => exact ih s1

/-- A stopped logger stays stopped, and accepts nothing, as long as no `start`
finds the file openable. -/
theorem exec_stopped (fuel : Nat) (fs : List Event) (hfs : ∀ e ∈ fs, e ≠ Event.start true)
    {s : AsyncLogger} (hs : Consistent s) (hr : s.running_ = false) :
    ∃ s1, exec fuel s fs = some s1 ∧ Consistent s1 ∧ s1.running_ = false
      ∧ accepted fuel s fs = [] := by
  induction fs generalizing s with
  | nil => exact ⟨s, rfl, hs, hr, rfl⟩
  | cons e fs ih =>
    obtain ⟨hf, ht⟩ := (hs.2.2 hr).2
    have hstep : ∃ s1, AsyncLogger.apply fuel s e = some s1 ∧ Consistent s1
        ∧ s1.running_ = false ∧ accepted fuel s [e] = [] := by
      rw [accepted_single]
      cases e with
      | start open_ok =>
        cases open_ok
        · refine ⟨_, rfl, (start_spec false hs).1, ?_, rfl⟩
          obtain ⟨b, r, t, f, c, n, x, i⟩ := s
          simp only at hr hf
          subst hr hf
          rfl
        · exact absurd rfl (hfs _ (List.mem_cons_self _ _))
      | stop k => exact ⟨s, by simp [AsyncLogger.apply, stop, hr], hs, hr, rfl⟩
      | log msg now entry0 =>
        have e1 : log msg now entry0 s = (false, s) := by simp [log, hr]
        exact ⟨s, by simp [AsyncLogger.apply, e1], hs, hr, by simp [e1]⟩
      | worker => exact ⟨s, by simp [AsyncLogger.apply, worker_step, ht], hs, hr, rfl⟩
      | io_error => exact ⟨s, by simp [AsyncLogger.apply, io_error, hf], hs, hr, rfl⟩
    obtain ⟨s1, g1, g2, g3, g4⟩ := hstep
    obtain ⟨s2, i1, i2, i3, i4⟩ := @ih (fun e he => hfs e (List.mem_cons_of_mem _ he)) s1 g2 g3
    refine ⟨s2, ?_, i2, i3, ?_⟩
    · simp only [exec, g1, i1]
    · rw [accepted_cons, g1, g4]
      exact i4

/-- A running logger keeps running, whatever the file-open outcomes, until
`stop` is called. -/
theorem exec_running (fuel : Nat) (gs : List Event)
    (hgs : ∀ e ∈ gs, ∀ k, e ≠ Event.stop k) {s : AsyncLogger} (hs : Consistent s)
    (hr : s.running_ = true) :
    ∃ s1, exec fuel s gs = some s1 ∧ Consistent s1 ∧ s1.running_ = true := by
  induction gs generalizing s with
  | nil => exact ⟨s, rfl, hs, hr⟩
  | cons e gs ih =>
    have hstep : ∃ s1, AsyncLogger.apply fuel s e = some s1 ∧ Consistent s1
        ∧ s1.running_ = true := by
      cases e with
      | start open_ok =>
        have e1 : start open_ok s = s := by simp [start, hr]
        exact ⟨s, by simp [AsyncLogger.apply, e1], hs, hr⟩
      | stop k => exact absurd rfl (hgs _ (List.mem_cons_self _ _) k)
      | log msg now entry0 =>
        obtain ⟨h1, -, h3⟩ := log_spec msg now entry0 hs
        exact ⟨_, rfl, h1, h3.trans hr⟩
      | worker =>
        obtain ⟨h1, -, h3⟩ := worker_step_spec hs
        exact ⟨_, rfl, h1, h3.trans hr⟩
      | io_error =>
        obtain ⟨h1, h3⟩ := io_error_spec hs
        exact ⟨_, rfl, h1, h3.trans hr⟩
    obtain ⟨s1, h1, h2, h3⟩ := hstep
    obtain ⟨s2, i1, i2, i3⟩ := @ih (fun e he => hgs e (List.mem_cons_of_mem _ he)) s1 h2 h3
    exact ⟨s2, by simp only [exec, h1, i1], i2, i3⟩

/-- The states reached from construction are consistent. -/
theorem reachable_consistent (fuel : Nat) (hfuel : BUFFER_SIZE ≤ fuel)
    {slots : List LogEntry} (hslots : slots.length = BUFFER_SIZE) (content : List Char)
    (es : List Event) {s : AsyncLogger}
    (hreach : exec fuel (AsyncLogger.new slots content) es = some s) : Consistent s := by
  obtain ⟨s1, h1, h2⟩ := exec_consistent fuel hfuel es (consistent_new hslots content)
  rw [hreach] at h1
  rw [Option.some.inj h1]
  exact h2

end LoggerEvents

/-! ## C strings, entries and their lines -/

section Entries

open RingBuffer AsyncLogger

theorem takeWhile_before_NUL (body rest : List Char) (hbody : NUL ∉ body) :
    (body ++ NUL :: rest).takeWhile (fun c => c != NUL) = body := by
  induction body with
  | nil => simp [List.takeWhile]
  | cons c cs ih =>
    have hc : c ≠ NUL := fun h => hbody (by simp [h])
    have hcs : NUL ∉ cs := fun h => hbody (by simp [h])
    have hne : (c != NUL) = true := by simp [hc]
    simp only [List.cons_append, List.takeWhile_cons, hne, if_true, ih hcs]

theorem strlen_before_NUL (body rest : List Char) (hbody : NUL ∉ body) :
    strlen (body ++ NUL :: rest) = body.length := by
  unfold strlen
  rw [takeWhile_before_NUL body rest hbody]

theorem c_str_before_NUL (body rest : List Char) (hbody : NUL ∉ body) :
    c_str (body ++ NUL :: rest) = body := by
  unfold c_str
  exact takeWhile_before_NUL body rest hbody

theorem set_at_length {α : Type} (front : List α) (hd : α) (tl : List α) (x : α) :
    (front ++ hd :: tl).set front.length x = front ++ x :: tl := by
  induction front with
  | nil => rfl
  | cons a as ih => simp [ih]

/-- The array of the entry `log` builds from a NUL-terminated message `body`:
the first 255 bytes of `body`, a NUL, and what the array held further on. -/
theorem log_entry_message (body rest : List Char) (hbody : NUL ∉ body) (now : Int)
    (entry0 : LogEntry) (hentry0 : entry0.message.length = MESSAGE_SIZE) :
    ∃ tl, (log_entry (body ++ NUL :: rest) now entry0).message = body.take 255 ++ NUL :: tl
      ∧ (body.take 255).length + 1 + tl.length = MESSAGE_SIZE := by
  have h256 : MESSAGE_SIZE = 256 := rfl
  rw [h256] at hentry0
  have hlen : ((body.take 255).length) = min 255 body.length := List.length_take _ _
  have hcopy : (if strlen (body ++ NUL :: rest) < MESSAGE_SIZE - 1
        then strlen (body ++ NUL :: rest) else MESSAGE_SIZE - 1) = (body.take 255).length := by
    rw [strlen_before_NUL body rest hbody, h256, hlen]
    split <;> omega
  have htake : (body ++ NUL :: rest).take (body.take 255).length = body.take 255 := by
    rw [List.take_append_of_le_length (by rw [hlen]; omega), hlen]
    rcases Nat.lt_or_ge body.length 255 with h | h
    · rw [Nat.min_eq_right (by omega), List.take_of_length_le (le_refl _),
        List.take_of_length_le (by omega)]
    · rw [Nat.min_eq_left h]
  have hdrop : ∃ hd tl, entry0.message.drop (body.take 255).length = hd :: tl := by
    cases hd : entry0.message.drop (body.take 255).length with
    | nil =>
      have := congrArg List.length hd
      rw [List.length_drop, hlen] at this
      simp only [List.length_nil] at this
      omega
    | cons a as => exact ⟨a, as, rfl⟩
  obtain ⟨hd, tl, hdt⟩ := hdrop
  refine ⟨tl, ?_, ?_⟩
  · simp only [log_entry]
    rw [hcopy]
    unfold memcpy
    rw [htake, hdt, set_at_length]
  · have := congrArg List.length hdt
    rw [List.length_drop, List.length_cons] at this
    omega

theorem take_input_before_NUL (body rest : List Char) :
    (body ++ NUL :: rest).take (min body.length 255) = body.take 255 := by
  rw [List.take_append_of_le_length (Nat.min_le_left _ _)]
  rcases Nat.lt_or_ge body.length 255 with h | h
  · rw [Nat.min_eq_left (by omega), List.take_of_length_le (le_refl _),
      List.take_of_length_le (by omega)]
  · rw [Nat.min_eq_right h]

theorem not_mem_take {α : Type} {a : α} {l : List α} (h : a ∉ l) (n : Nat) : a ∉ l.take n :=
  fun hm => h (List.mem_of_mem_take hm)

end Entries

/-! ## Properties of the ring buffer -/

section RingBufferProperties

open RingBuffer

variable {T : Type}

/-- C1: on a freshly constructed buffer of power-of-two `Size`, pushing a list
`xs` of at most `capacity() = Size - 1` items succeeds at every call; the same
number of `try_pop` calls then all return true and hand out the items of `xs`
in the order they were pushed, and the buffer is empty afterwards. -/
theorem push_all_then_pop_n_fifo [Inhabited T] (k : Nat) (hk : k < 64) (moved : T → T)
    (slots : List T) (hslots : slots.length = 2 ^ k) (item : T) (xs : List T)
    (hxs : xs.length ≤ capacity (2 ^ k)) :
    capacity (2 ^ k) = 2 ^ k - 1
      ∧ (push_all (2 ^ k) (RingBuffer.new slots) xs).1 = List.replicate xs.length true
      ∧ (pop_n (2 ^ k) moved item (push_all (2 ^ k) (RingBuffer.new slots) xs).2 xs.length).1
          = xs.map (fun x => (true, x))
      ∧ empty (pop_n (2 ^ k) moved item
          (push_all (2 ^ k) (RingBuffer.new slots) xs).2 xs.length).2 = true := by
  have hcap := capacity_two_pow hk
  rw [hcap] at hxs
  have hnew : WellFormed (2 ^ k) (RingBuffer.new slots) :=
    wellFormed_new (Nat.two_pow_pos k) hslots
  have hsz0 := size_new hk hslots
  have hc0 : contents (2 ^ k) (RingBuffer.new slots) = [] := by
    apply List.eq_nil_of_length_eq_zero
    rw [length_contents, hsz0]
  obtain ⟨h1, h2, h3⟩ := push_all_spec hk xs hnew (by omega)
  rw [hc0, List.nil_append] at h3
  have hsz : size (2 ^ k) (push_all (2 ^ k) (RingBuffer.new slots) xs).2 = xs.length := by
    rw [← length_contents, h3]
  obtain ⟨h4, h5, h6⟩ := pop_n_spec hk moved item xs.length h2 (by omega)
  refine ⟨hcap, h1, ?_, ?_⟩
  · rw [h4, h3, List.take_length]
  · rw [empty_iff_size hk h5, ← length_contents, h6, h3, List.drop_length]
    rfl

theorem push_all_then_pop_n_fifo_witness :
    4 < 64 ∧ (List.replicate 16 (0 : Nat)).length = 2 ^ 4
      ∧ [10, 11, 12, 13, 14, 15, 16, 17, 18, 19].length ≤ capacity (2 ^ 4)
      ∧ (pop_n (2 ^ 4) id 0
          (push_all (2 ^ 4) (RingBuffer.new (List.replicate 16 (0 : Nat)))
            [10, 11, 12, 13, 14, 15, 16, 17, 18, 19]).2
          [10, 11, 12, 13, 14, 15, 16, 17, 18, 19].length).1
        = [10, 11, 12, 13, 14, 15, 16, 17, 18, 19].map (fun x => (true, x)) :=
  ⟨by decide, by decide, by decide,
    (push_all_then_pop_n_fifo 4 (by decide) id (List.replicate 16 (0 : Nat)) (by decide) 0
      [10, 11, 12, 13, 14, 15, 16, 17, 18, 19] (by decide)).2.2.1⟩

/-- C2: in every state reached from construction by `try_push` and `try_pop`
calls, `try_push` returns false exactly when `size() == capacity() == Size - 1`
and `try_pop` returns false exactly when `size() == 0`. -/
theorem try_push_try_pop_fail_iff [Inhabited T] (k : Nat) (hk : k < 64) (moved : T → T)
    (slots : List T) (hslots : slots.length = 2 ^ k) (ops : List (Op T)) (x item : T) :
    capacity (2 ^ k) = 2 ^ k - 1
      ∧ ((try_push (2 ^ k) (run (2 ^ k) moved (RingBuffer.new slots) ops) x).1 = false
          ↔ size (2 ^ k) (run (2 ^ k) moved (RingBuffer.new slots) ops) = capacity (2 ^ k))
      ∧ ((try_pop (2 ^ k) moved (run (2 ^ k) moved (RingBuffer.new slots) ops) item).1 = false
          ↔ size (2 ^ k) (run (2 ^ k) moved (RingBuffer.new slots) ops) = 0) := by
  have hs := reachable_wellFormed hk moved hslots ops
  refine ⟨capacity_two_pow hk, ?_, try_pop_false_iff hk hs moved item⟩
  rw [capacity_two_pow hk]
  exact try_push_false_iff hk hs x

theorem try_push_try_pop_fail_iff_witness :
    4 < 64 ∧ (List.replicate 16 (0 : Nat)).length = 2 ^ 4
      ∧ ((try_pop (2 ^ 4) id
            (run (2 ^ 4) id (RingBuffer.new (List.replicate 16 (0 : Nat)))
              [Op.push 7, Op.pop 0, Op.pop 0]) 5).1 = false
          ↔ size (2 ^ 4)
            (run (2 ^ 4) id (RingBuffer.new (List.replicate 16 (0 : Nat)))
              [Op.push 7, Op.pop 0, Op.pop 0]) = 0) :=
  ⟨by decide, by decide,
    (try_push_try_pop_fail_iff 4 (by decide) id (List.replicate 16 (0 : Nat)) (by decide)
      [Op.push 7, Op.pop 0, Op.pop 0] 9 5).2.2⟩

/-- C4: in every reachable state, a `try_push` that returns false leaves both
cursors and all slots as they were, a `try_pop` that returns false leaves the
cursors, the slots and the output argument as they were, and no `try_push`,
failed or not, changes a slot that holds a pushed, not yet popped element: the
elements held before the call are still held, in the same order. -/
theorem failed_calls_change_nothing [Inhabited T] (k : Nat) (hk : k < 64) (moved : T → T)
    (slots : List T) (hslots : slots.length = 2 ^ k) (ops : List (Op T)) (x item : T) :
    ((try_push (2 ^ k) (run (2 ^ k) moved (RingBuffer.new slots) ops) x).1 = false →
        (try_push (2 ^ k) (run (2 ^ k) moved (RingBuffer.new slots) ops) x).2
          = run (2 ^ k) moved (RingBuffer.new slots) ops)
      ∧ ((try_pop (2 ^ k) moved (run (2 ^ k) moved (RingBuffer.new slots) ops) item).1 = false →
        (try_pop (2 ^ k) moved (run (2 ^ k) moved (RingBuffer.new slots) ops) item).2
          = (run (2 ^ k) moved (RingBuffer.new slots) ops, item))
      ∧ (∀ i, i < size (2 ^ k) (run (2 ^ k) moved (RingBuffer.new slots) ops) →
        (try_push (2 ^ k) (run (2 ^ k) moved (RingBuffer.new slots) ops) x).2.buffer_[
            ((run (2 ^ k) moved (RingBuffer.new slots) ops).read_pos_ + i) % 2 ^ k]?
          = (run (2 ^ k) moved (RingBuffer.new slots) ops).buffer_[
            ((run (2 ^ k) moved (RingBuffer.new slots) ops).read_pos_ + i) % 2 ^ k]?)
      ∧ contents (2 ^ k) (run (2 ^ k) moved (RingBuffer.new slots) ops)
          <+: contents (2 ^ k)
            (try_push (2 ^ k) (run (2 ^ k) moved (RingBuffer.new slots) ops) x).2 := by
  have hs := reachable_wellFormed hk moved hslots ops
  generalize run (2 ^ k) moved (RingBuffer.new slots) ops = s at hs ⊢
  refine ⟨try_push_fail_state _ _ _, try_pop_fail_state _ _ _ _, ?_, ?_⟩
  · intro i hi
    cases h : (try_push (2 ^ k) s x).1
    · rw [try_push_fail_state _ _ _ h]
    · rw [size_eq hk hs] at hi
      obtain ⟨hw, hr, -⟩ := hs
      rw [try_push_ok_state hk hw x h]
      exact List.getElem?_set_ne (Ne.symm (live_index_ne hr hw hi))
  · cases h : (try_push (2 ^ k) s x).1
    · rw [try_push_fail_state _ _ _ h]
    · rw [try_push_contents hk hs x h]
      exact List.prefix_append _ _

theorem failed_calls_change_nothing_witness :
    4 < 64 ∧ (List.replicate 16 (0 : Nat)).length = 2 ^ 4
      ∧ contents (2 ^ 4)
          (run (2 ^ 4) id (RingBuffer.new (List.replicate 16 (0 : Nat))) [Op.push 7, Op.push 8])
        <+: contents (2 ^ 4)
          (try_push (2 ^ 4)
            (run (2 ^ 4) id (RingBuffer.new (List.replicate 16 (0 : Nat)))
              [Op.push 7, Op.push 8]) 9).2 :=
  ⟨by decide, by decide,
    (failed_calls_change_nothing 4 (by decide) id (List.replicate 16 (0 : Nat)) (by decide)
      [Op.push 7, Op.push 8] 9 0).2.2.2⟩

/-- C10: in every state reached from construction, `size()` is the cursor
difference `write_pos - read_pos` reduced modulo `Size`, lies between 0 and
`Size - 1`, and equals the number of `try_push` calls that returned true minus
the number of `try_pop` calls that returned true; it is 0 on a fresh buffer,
one more after a successful push and one less after a successful pop. -/
theorem size_counts_live_elements [Inhabited T] (k : Nat) (hk : k < 64) (moved : T → T)
    (slots : List T) (hslots : slots.length = 2 ^ k) (ops : List (Op T)) (x item : T) :
    (size (2 ^ k) (run (2 ^ k) moved (RingBuffer.new slots) ops) : Int)
        = (((run (2 ^ k) moved (RingBuffer.new slots) ops).write_pos_ : Int)
            - ((run (2 ^ k) moved (RingBuffer.new slots) ops).read_pos_ : Int))
          % ((2 ^ k : Nat) : Int)
      ∧ size (2 ^ k) (run (2 ^ k) moved (RingBuffer.new slots) ops) ≤ 2 ^ k - 1
      ∧ size (2 ^ k) (run (2 ^ k) moved (RingBuffer.new slots) ops)
          + pops_ok (2 ^ k) moved (RingBuffer.new slots) ops
        = pushes_ok (2 ^ k) moved (RingBuffer.new slots) ops
      ∧ size (2 ^ k) (RingBuffer.new slots) = 0
      ∧ ((try_push (2 ^ k) (run (2 ^ k) moved (RingBuffer.new slots) ops) x).1 = true →
          size (2 ^ k) (try_push (2 ^ k) (run (2 ^ k) moved (RingBuffer.new slots) ops) x).2
            = size (2 ^ k) (run (2 ^ k) moved (RingBuffer.new slots) ops) + 1)
      ∧ ((try_pop (2 ^ k) moved (run (2 ^ k) moved (RingBuffer.new slots) ops) item).1 = true →
          size (2 ^ k) (try_pop (2 ^ k) moved (run (2 ^ k) moved (RingBuffer.new slots) ops) item).2.1
              + 1
            = size (2 ^ k) (run (2 ^ k) moved (RingBuffer.new slots) ops)) := by
  have hnew : WellFormed (2 ^ k) (RingBuffer.new slots) :=
    wellFormed_new (Nat.two_pow_pos k) hslots
  have hs := reachable_wellFormed hk moved hslots ops
  have hcount := run_size_count hk moved ops hnew
  rw [size_new hk hslots, Nat.zero_add] at hcount
  exact ⟨size_eq_emod hk hs, size_le hk hs, hcount, size_new hk hslots,
    try_push_size hk hs x, try_pop_size hk hs moved item⟩

theorem size_counts_live_elements_witness :
    4 < 64 ∧ (List.replicate 16 (0 : Nat)).length = 2 ^ 4
      ∧ size (2 ^ 4)
          (run (2 ^ 4) id (RingBuffer.new (List.replicate 16 (0 : Nat)))
            [Op.push 1, Op.push 2, Op.pop 0])
          + pops_ok (2 ^ 4) id (RingBuffer.new (List.replicate 16 (0 : Nat)))
            [Op.push 1, Op.push 2, Op.pop 0]
        = pushes_ok (2 ^ 4) id (RingBuffer.new (List.replicate 16 (0 : Nat)))
            [Op.push 1, Op.push 2, Op.pop 0] :=
  ⟨by decide, by decide,
    (size_counts_live_elements 4 (by decide) id (List.replicate 16 (0 : Nat)) (by decide)
      [Op.push 1, Op.push 2, Op.pop 0] 9 0).2.2.1⟩

end RingBufferProperties

/-! ## Properties of the logger -/

section LoggerProperties

open RingBuffer AsyncLogger

/-- C3, as amended: after any sequence of `start`, `log`, `stop` calls and
turns of the background thread during which the device refuses no write of the
stream, at the return of a `stop` the file holds what it held at construction
followed by exactly the lines of the entries of the `log` calls that returned
true, in the order of those calls; `stop` does return, and leaves the logger
stopped. This holds whether or not the opens succeed. -/
theorem stop_delivers_accepted_entries (fuel : Nat) (hfuel : BUFFER_SIZE ≤ fuel)
    (slots : List LogEntry) (hslots : slots.length = BUFFER_SIZE) (content : List Char)
    (es : List Event) (hio : ∀ e ∈ es, e ≠ Event.io_error) (k : Nat) :
    ∃ s1, exec fuel (AsyncLogger.new slots content) (es ++ [Event.stop k]) = some s1
      ∧ s1.content
          = content ++ format_all (accepted fuel (AsyncLogger.new slots content) es)
      ∧ is_running s1 = false := by
  have hg : Writable (AsyncLogger.new slots content) := fun _ => rfl
  obtain ⟨s, h1, h2, -, h3⟩ := exec_spec fuel hfuel es hio (consistent_new hslots content) hg
  obtain ⟨s1, g1, g2, g3, g4, -⟩ := stop_spec fuel k hfuel h2
  refine ⟨s1, ?_, ?_, g3⟩
  · rw [exec_append, h1]
    simp only [exec, AsyncLogger.apply, g1]
  · rw [← eventual_content_of_empty (g2.2.2 g3).1, g4, h3, eventual_content_new hslots]

theorem stop_delivers_accepted_entries_witness :
    BUFFER_SIZE ≤ 2048 ∧ (List.replicate 2048 (default : LogEntry)).length = BUFFER_SIZE
      ∧ (∀ e ∈ [Event.start true, Event.log ['h', 'i', NUL] 5 default, Event.worker,
              Event.log ['y', 'o', NUL] 6 default], e ≠ Event.io_error)
      ∧ ∃ s1, exec 2048 (AsyncLogger.new (List.replicate 2048 default) ['o', 'l', 'd', '\n'])
            ([Event.start true, Event.log ['h', 'i', NUL] 5 default, Event.worker,
              Event.log ['y', 'o', NUL] 6 default] ++ [Event.stop 0]) = some s1
          ∧ s1.content
            = ['o', 'l', 'd', '\n'] ++ format_all (accepted 2048
                (AsyncLogger.new (List.replicate 2048 default) ['o', 'l', 'd', '\n'])
                [Event.start true, Event.log ['h', 'i', NUL] 5 default, Event.worker,
                  Event.log ['y', 'o', NUL] 6 default])
          ∧ is_running s1 = false :=
  ⟨by decide, List.length_replicate _ _, by simp,
    stop_delivers_accepted_entries 2048 (by decide) (List.replicate 2048 default)
      (List.length_replicate _ _) ['o', 'l', 'd', '\n']
      [Event.start true, Event.log ['h', 'i', NUL] 5 default, Event.worker,
        Event.log ['y', 'o', NUL] 6 default] (by simp) 0⟩

/-- C3 as stated fails although every file open succeeds: the stream is opened,
a `log` call is accepted, then the device refuses a write of the stream (which
the code never checks); `stop` returns with the logger stopped, and the file
holds what it held at construction, without the line of the accepted entry. -/
theorem stop_after_refused_write_loses_entry :
    accepted 2048 (AsyncLogger.new (List.replicate 2048 default) ['o'])
        [Event.start true, Event.log ['x', NUL] 5 default, Event.io_error]
      = [log_entry ['x', NUL] 5 default]
    ∧ ∃ s1, exec 2048 (AsyncLogger.new (List.replicate 2048 default) ['o'])
          ([Event.start true, Event.log ['x', NUL] 5 default, Event.io_error]
            ++ [Event.stop 0]) = some s1
        ∧ is_running s1 = false
        ∧ s1.content = ['o']
        ∧ s1.content ≠ ['o'] ++ format_all (accepted 2048
            (AsyncLogger.new (List.replicate 2048 default) ['o'])
            [Event.start true, Event.log ['x', NUL] 5 default, Event.io_error]) := by
  have ha : accepted 2048 (AsyncLogger.new (List.replicate 2048 default) ['o'])
        [Event.start true, Event.log ['x', NUL] 5 default, Event.io_error]
      = [log_entry ['x', NUL] 5 default] := rfl
  refine ⟨ha, ?_⟩
  refine Exists.intro
    ({ buffer_ := { write_pos_ := 1, read_pos_ := 1,
                    buffer_ := ((List.replicate 2048 default).set 0
                      (log_entry ['x', NUL] 5 default)).set 0 (log_entry ['x', NUL] 5 default) },
       running_ := false, thread_ := false, file_ := false, content := ['o'],
       spawned := 1, stream_failed := true,
       inserted := format_entry (log_entry ['x', NUL] 5 default) } : AsyncLogger)
    ⟨rfl, rfl, rfl, ?_⟩
  rw [ha]
  decide

/-- C5: `log` on a logger that is not running returns false and leaves the
whole state as it was: nothing is put into the ring buffer and the bytes of the
file stay the same. -/
theorem log_when_not_running (s : AsyncLogger) (msg : List Char) (now : Int)
    (entry0 : LogEntry) (h : is_running s = false) :
    (log msg now entry0 s).1 = false
      ∧ (log msg now entry0 s).2 = s
      ∧ (log msg now entry0 s).2.buffer_ = s.buffer_
      ∧ (log msg now entry0 s).2.content = s.content := by
  have hr : s.running_ = false := h
  have e : log msg now entry0 s = (false, s) := by simp [log, hr]
  rw [e]
  exact ⟨rfl, rfl, rfl, rfl⟩

theorem log_when_not_running_witness :
    is_running (AsyncLogger.new [] []) = false
      ∧ (log ['S', 'h', 'o', 'u', 'l', 'd', NUL] 7 default (AsyncLogger.new [] [])).1 = false :=
  ⟨rfl, (log_when_not_running (AsyncLogger.new [] []) ['S', 'h', 'o', 'u', 'l', 'd', NUL] 7
    default rfl).1⟩

/-- C6: for a NUL-terminated message `body` of any length `n`, `log` on a
reachable running logger whose buffer is not full returns true and appends one
entry to the elements the buffer holds; the array of that entry starts with the
first `min n 255` bytes of the input followed by a NUL, so the message it holds
is the first 255 bytes of `body`, and `body` itself when `n ≤ 255`. -/
theorem log_truncates_message (fuel : Nat) (hfuel : BUFFER_SIZE ≤ fuel)
    (slots : List LogEntry) (hslots : slots.length = BUFFER_SIZE) (content : List Char)
    (es : List Event) (s : AsyncLogger)
    (hreach : exec fuel (AsyncLogger.new slots content) es = some s)
    (hrun : is_running s = true) (hfull : full BUFFER_SIZE s.buffer_ = false)
    (body rest : List Char) (hbody : NUL ∉ body) (now : Int)
    (entry0 : LogEntry) (hentry0 : entry0.message.length = MESSAGE_SIZE) :
    (log (body ++ NUL :: rest) now entry0 s).1 = true
      ∧ contents BUFFER_SIZE (log (body ++ NUL :: rest) now entry0 s).2.buffer_
          = contents BUFFER_SIZE s.buffer_ ++ [log_entry (body ++ NUL :: rest) now entry0]
      ∧ strlen (body ++ NUL :: rest) = body.length
      ∧ (log_entry (body ++ NUL :: rest) now entry0).message.take (min body.length 255 + 1)
          = (body ++ NUL :: rest).take (min body.length 255) ++ [NUL]
      ∧ c_str (log_entry (body ++ NUL :: rest) now entry0).message = body.take 255
      ∧ (c_str (log_entry (body ++ NUL :: rest) now entry0).message).length ≤ 255
      ∧ (body.length ≤ 255 → c_str (log_entry (body ++ NUL :: rest) now entry0).message = body)
      ∧ (log_entry (body ++ NUL :: rest) now entry0).message.length = MESSAGE_SIZE
      ∧ (log_entry (body ++ NUL :: rest) now entry0).timestamp = now := by
  have h2 := reachable_consistent fuel hfuel hslots content es hreach
  obtain ⟨tl, hm, hl⟩ := log_entry_message body rest hbody now entry0 hentry0
  have hlen : (body.take 255).length = min 255 body.length := List.length_take _ _
  have hc : c_str (log_entry (body ++ NUL :: rest) now entry0).message = body.take 255 := by
    rw [hm]
    exact c_str_before_NUL _ _ (not_mem_take hbody 255)
  have hr : s.running_ = true := hrun
  have e : log (body ++ NUL :: rest) now entry0 s
      = ((try_push BUFFER_SIZE s.buffer_ (log_entry (body ++ NUL :: rest) now entry0)).1,
          { s with buffer_ :=
            (try_push BUFFER_SIZE s.buffer_ (log_entry (body ++ NUL :: rest) now entry0)).2 }) := by
    simp [log, hr]
  have hp : (try_push BUFFER_SIZE s.buffer_
      (log_entry (body ++ NUL :: rest) now entry0)).1 = true := by
    simp only [full, beq_eq_false_iff_ne, ne_eq] at hfull
    simp only [try_push, if_neg hfull]
  refine ⟨?_, ?_, strlen_before_NUL body rest hbody, ?_, hc, ?_, ?_, ?_, rfl⟩
  · rw [e]
    exact hp
  · rw [e]
    exact @try_push_contents LogEntry _ 11 (by decide) s.buffer_ h2.1 _ hp
  · rw [hm, take_input_before_NUL]
    have hidx : min body.length 255 + 1 = (body.take 255).length + 1 := by
      rw [hlen, Nat.min_comm]
    rw [hidx, List.take_append]
    rfl
  · rw [hc, hlen]
    exact Nat.min_le_left _ _
  · intro hn
    rw [hc, List.take_of_length_le hn]
  · rw [hm, List.length_append, List.length_cons]
    omega

theorem log_truncates_message_witness :
    BUFFER_SIZE ≤ 2048 ∧ (List.replicate 2048 (default : LogEntry)).length = BUFFER_SIZE
      ∧ exec 2048 (AsyncLogger.new (List.replicate 2048 default) []) [Event.start true]
          = some (start true (AsyncLogger.new (List.replicate 2048 default) []))
      ∧ is_running (start true (AsyncLogger.new (List.replicate 2048 default) [])) = true
      ∧ full BUFFER_SIZE (start true (AsyncLogger.new (List.replicate 2048 default) [])).buffer_
          = false
      ∧ NUL ∉ List.replicate 500 'A'
      ∧ (List.replicate 256 'z').length = MESSAGE_SIZE
      ∧ c_str (log_entry (List.replicate 500 'A' ++ NUL :: ['x']) 9
            { message := List.replicate 256 'z', timestamp := 0 }).message
          = (List.replicate 500 'A').take 255 :=
  ⟨by decide, List.length_replicate _ _, rfl, rfl, by decide,
    fun h => absurd (List.eq_of_mem_replicate h) (by decide), List.length_replicate _ _,
    (log_truncates_message 2048 (by decide) (List.replicate 2048 default)
      (List.length_replicate _ _) [] [Event.start true]
      (start true (AsyncLogger.new (List.replicate 2048 default) [])) rfl rfl (by decide)
      (List.replicate 500 'A') ['x']
      (fun h => absurd (List.eq_of_mem_replicate h) (by decide)) 9
      { message := List.replicate 256 'z', timestamp := 0 }
      (List.length_replicate _ _)).2.2.2.2.1⟩

/-- C8: on every reachable logger, `start` while running and `stop` while
stopped return the state they were given (no file opened, no thread created,
buffer and file as before); hence two `start` calls in a row that meet the same
file-open outcome, or of which the first one succeeds, end in the state the
first one reached, and a second `stop` after a `stop` changes nothing. -/
theorem start_stop_idempotent (fuel : Nat) (hfuel : BUFFER_SIZE ≤ fuel)
    (slots : List LogEntry) (hslots : slots.length = BUFFER_SIZE) (content : List Char)
    (es : List Event) (s : AsyncLogger)
    (hreach : exec fuel (AsyncLogger.new slots content) es = some s)
    (open_ok open_ok2 : Bool) (k k2 : Nat) :
    (is_running s = true → start open_ok s = s)
      ∧ (is_running s = false → stop fuel k s = some s)
      ∧ start open_ok (start open_ok s) = start open_ok s
      ∧ start open_ok2 (start true s) = start true s
      ∧ ∃ s1, stop fuel k s = some s1 ∧ is_running s1 = false ∧ stop fuel k2 s1 = some s1 := by
  have hs := reachable_consistent fuel hfuel hslots content es hreach
  refine ⟨?_, ?_, ?_, ?_, ?_⟩
  · intro h
    have hr : s.running_ = true := h
    simp [start, hr]
  · intro h
    have hr : s.running_ = false := h
    simp [stop, hr]
  · obtain ⟨b, r, t, f, c, n⟩ := s
    cases r <;> cases f <;> cases open_ok <;> rfl
  · obtain ⟨b, r, t, f, c, n⟩ := s
    cases r <;> cases f <;> rfl
  · obtain ⟨s1, h1, -, h3, -, -⟩ := stop_spec fuel k hfuel hs
    exact ⟨s1, h1, h3, by simp [stop, h3]⟩

theorem start_stop_idempotent_witness :
    BUFFER_SIZE ≤ 2048 ∧ (List.replicate 2048 (default : LogEntry)).length = BUFFER_SIZE
      ∧ exec 2048 (AsyncLogger.new (List.replicate 2048 default) []) [Event.start true]
          = some (start true (AsyncLogger.new (List.replicate 2048 default) []))
      ∧ start false (start true (start true (AsyncLogger.new (List.replicate 2048 default) [])))
          = start true (start true (AsyncLogger.new (List.replicate 2048 default) [])) :=
  ⟨by decide, List.length_replicate _ _, rfl,
    (start_stop_idempotent 2048 (by decide) (List.replicate 2048 default)
      (List.length_replicate _ _) [] [Event.start true]
      (start true (AsyncLogger.new (List.replicate 2048 default) [])) rfl true false 0 0).2.2.2.1⟩

/-- C9: on a reachable stopped logger, a `start` whose file open fails leaves
`is_running()` false and creates no thread, and from then on every `log` call
returns false as long as no `start` finds the file openable; a `start` whose
open succeeds makes `is_running()` true and creates one thread, the logger
stays running until `stop` is called, and `is_running()` is false after that
`stop`. -/
theorem start_open_failure_and_success (fuel : Nat) (hfuel : BUFFER_SIZE ≤ fuel)
    (slots : List LogEntry) (hslots : slots.length = BUFFER_SIZE) (content : List Char)
    (es : List Event) (s : AsyncLogger)
    (hreach : exec fuel (AsyncLogger.new slots content) es = some s)
    (hstopped : is_running s = false)
    (fs : List Event) (hfs : ∀ e ∈ fs, e ≠ Event.start true)
    (gs : List Event) (hgs : ∀ e ∈ gs, ∀ k, e ≠ Event.stop k) (k : Nat) :
    (is_running (start false s) = false ∧ (start false s).thread_ = false
        ∧ (start false s).spawned = s.spawned)
      ∧ (∃ s2, exec fuel (start false s) fs = some s2 ∧ is_running s2 = false
          ∧ accepted fuel (start false s) fs = []
          ∧ ∀ msg now entry0, (log msg now entry0 s2).1 = false)
      ∧ (is_running (start true s) = true ∧ (start true s).thread_ = true
          ∧ (start true s).spawned = s.spawned + 1)
      ∧ ∃ s3 s4, exec fuel (start true s) gs = some s3 ∧ is_running s3 = true
          ∧ stop fuel k s3 = some s4 ∧ is_running s4 = false := by
  have hs := reachable_consistent fuel hfuel hslots content es hreach
  have hr : s.running_ = false := hstopped
  obtain ⟨-, hf, ht⟩ := hs.2.2 hr
  have e0 : start false s = { s with stream_failed := true } := by
    obtain ⟨b, r, t, f, c, n, x, i⟩ := s
    simp only at hr hf
    subst hr hf
    rfl
  have e1 : start true s
      = { s with running_ := true, file_ := true, thread_ := true, spawned := s.spawned + 1,
                 stream_failed := false } := by
    obtain ⟨b, r, t, f, c, n, x, i⟩ := s
    simp only at hr hf
    subst hr hf
    rfl
  obtain ⟨c0, -⟩ := start_spec false hs
  obtain ⟨c1, -⟩ := start_spec true hs
  have hr0 : (start false s).running_ = false := by rw [e0]; exact hr
  refine ⟨?_, ?_, ?_, ?_⟩
  · rw [e0]
    exact ⟨hstopped, ht, rfl⟩
  · obtain ⟨s2, x1, -, x3, x4⟩ := exec_stopped fuel fs hfs c0 hr0
    refine ⟨s2, x1, x3, x4, ?_⟩
    intro msg now entry0
    simp [log, x3]
  · rw [e1]
    exact ⟨rfl, rfl, rfl⟩
  · obtain ⟨s3, g1, g2, g3⟩ := exec_running fuel gs hgs c1 (by rw [e1])
    obtain ⟨s4, i1, -, i3, -, -⟩ := stop_spec fuel k hfuel g2
    exact ⟨s3, s4, g1, g3, i1, i3⟩

theorem start_open_failure_and_success_witness :
    BUFFER_SIZE ≤ 2048 ∧ (List.replicate 2048 (default : LogEntry)).length = BUFFER_SIZE
      ∧ exec 2048 (AsyncLogger.new (List.replicate 2048 default) []) []
          = some (AsyncLogger.new (List.replicate 2048 default) [])
      ∧ is_running (AsyncLogger.new (List.replicate 2048 default) []) = false
      ∧ (∀ e ∈ [Event.log ['a', NUL] 1 default, Event.start false, Event.stop 0],
          e ≠ Event.start true)
      ∧ (∀ e ∈ [Event.log ['b', NUL] 2 default, Event.worker], ∀ k, e ≠ Event.stop k)
      ∧ accepted 2048 (start false (AsyncLogger.new (List.replicate 2048 default) []))
          [Event.log ['a', NUL] 1 default, Event.start false, Event.stop 0] = [] :=
  ⟨by decide, List.length_replicate _ _, rfl, rfl, by simp, by simp,
    (start_open_failure_and_success 2048 (by decide) (List.replicate 2048 default)
      (List.length_replicate _ _) [] [] (AsyncLogger.new (List.replicate 2048 default) []) rfl rfl
      [Event.log ['a', NUL] 1 default, Event.start false, Event.stop 0] (by simp)
      [Event.log ['b', NUL] 2 default, Event.worker] (by simp) 0).2.1.choose_spec.2.2.1⟩

end LoggerProperties

/-! ## Snapshots, capacity and bounds of the ring buffer -/

section RingBufferSnapshots

open RingBuffer

variable {T : Type}

/-- `full()` evaluates the test that makes `try_push` fail. -/
theorem try_push_false_iff_full (S : Nat) (s : RingBuffer T) (x : T) :
    (try_push S s x).1 = false ↔ full S s = true := by
  simp only [try_push, full, beq_iff_eq]
  split_ifs with h
  · exact ⟨fun _ => h, fun _ => rfl⟩
  · exact ⟨fun h1 => absurd h1 (by simp), fun h1 => absurd h1 h⟩

theorem full_iff_size {k : Nat} (hk : k < 64) {s : RingBuffer T} (hs : WellFormed (2 ^ k) s) :
    full (2 ^ k) s = true ↔ size (2 ^ k) s = 2 ^ k - 1 := by
  obtain ⟨hw, hr, hl⟩ := hs
  have hx : ∃ x : T, True := by
    cases hb : s.buffer_ with
    | nil =>
      rw [hb] at hl
      have := Nat.two_pow_pos k
      simp only [List.length_nil] at hl
      omega
    | cons a _ => exact ⟨a, trivial⟩
  obtain ⟨x, -⟩ := hx
  rw [← try_push_false_iff_full (2 ^ k) s x]
  exact try_push_false_iff hk ⟨hw, hr, hl⟩ x

theorem run_map_push [Inhabited T] (S : Nat) (moved : T → T) (xs : List T) (s : RingBuffer T) :
    run S moved s (xs.map Op.push) = (push_all S s xs).2 := by
  induction xs generalizing s with
  | nil => rfl
  | cons x xs ih => simp only [List.map_cons, run, step, push_all, ih]

/-- Filling a fresh buffer with `Size - 1` elements. -/
theorem size_filled [Inhabited T] {k : Nat} (hk : k < 64) (moved : T → T) {slots : List T}
    (hslots : slots.length = 2 ^ k) (x : T) :
    size (2 ^ k)
        (run (2 ^ k) moved (RingBuffer.new slots) ((List.replicate (2 ^ k - 1) x).map Op.push))
      = 2 ^ k - 1 := by
  have hnew : WellFormed (2 ^ k) (RingBuffer.new slots) :=
    wellFormed_new (Nat.two_pow_pos k) hslots
  have h0 := size_new hk hslots
  obtain ⟨-, -, h3⟩ := push_all_spec hk (List.replicate (2 ^ k - 1) x) hnew
    (by rw [h0, List.length_replicate]; omega)
  rw [run_map_push, ← length_contents, h3, List.length_append, length_contents, h0,
    List.length_replicate]
  omega

end RingBufferSnapshots

/-! ## Further properties of the ring buffer -/

section RingBufferProperties2

open RingBuffer

variable {T : Type}

/-- C11, as amended: in every reachable state `empty()` is true exactly when
`size() == 0` and `full()` is true exactly when `size() == capacity()`; a fresh
buffer is empty, and it is not full when `Size ≥ 2`; a buffer is not empty right
after a successful push; a buffer filled with `capacity()` items is full, a
failed push leaves it full, and it is not full after a successful pop. -/
theorem empty_full_snapshots [Inhabited T] (k : Nat) (hk : k < 64) (moved : T → T)
    (slots : List T) (hslots : slots.length = 2 ^ k) (ops : List (Op T)) (x item : T) :
    (empty (run (2 ^ k) moved (RingBuffer.new slots) ops) = true
        ↔ size (2 ^ k) (run (2 ^ k) moved (RingBuffer.new slots) ops) = 0)
      ∧ (full (2 ^ k) (run (2 ^ k) moved (RingBuffer.new slots) ops) = true
        ↔ size (2 ^ k) (run (2 ^ k) moved (RingBuffer.new slots) ops) = capacity (2 ^ k))
      ∧ empty (RingBuffer.new slots) = true
      ∧ (0 < k → full (2 ^ k) (RingBuffer.new slots) = false)
      ∧ ((try_push (2 ^ k) (run (2 ^ k) moved (RingBuffer.new slots) ops) x).1 = true →
          empty (try_push (2 ^ k) (run (2 ^ k) moved (RingBuffer.new slots) ops) x).2 = false)
      ∧ full (2 ^ k) (run (2 ^ k) moved (RingBuffer.new slots)
          ((List.replicate (capacity (2 ^ k)) x).map Op.push)) = true
      ∧ (full (2 ^ k) (run (2 ^ k) moved (RingBuffer.new slots) ops) = true →
          full (2 ^ k) (try_push (2 ^ k) (run (2 ^ k) moved (RingBuffer.new slots) ops) x).2
            = true)
      ∧ ((try_pop (2 ^ k) moved (run (2 ^ k) moved (RingBuffer.new slots) ops) item).1 = true →
          full (2 ^ k)
            (try_pop (2 ^ k) moved (run (2 ^ k) moved (RingBuffer.new slots) ops) item).2.1
            = false) := by
  have hcap := capacity_two_pow hk
  have hnew : WellFormed (2 ^ k) (RingBuffer.new slots) :=
    wellFormed_new (Nat.two_pow_pos k) hslots
  have hfilled := reachable_wellFormed hk moved hslots
    ((List.replicate (capacity (2 ^ k)) x).map Op.push)
  have hs := reachable_wellFormed hk moved hslots ops
  generalize run (2 ^ k) moved (RingBuffer.new slots) ops = s at hs ⊢
  rw [hcap] at hfilled ⊢
  refine ⟨empty_iff_size hk hs, full_iff_size hk hs, rfl, ?_, ?_, ?_, ?_, ?_⟩
  · intro hpos
    have h1 : 1 < 2 ^ k := Nat.one_lt_two_pow (by omega)
    cases hf : full (2 ^ k) (RingBuffer.new slots)
    · rfl
    · rw [full_iff_size hk hnew, size_new hk hslots] at hf
      omega
  · intro hp
    have h1 := try_push_size hk hs x hp
    cases he : empty (try_push (2 ^ k) s x).2
    · rfl
    · rw [empty_iff_size hk (try_push_wellFormed hk hs x)] at he
      omega
  · rw [full_iff_size hk hfilled]
    exact size_filled hk moved hslots x
  · intro hf
    rw [← try_push_false_iff_full (2 ^ k) s x] at hf
    rw [try_push_fail_state _ _ _ hf, ← try_push_false_iff_full (2 ^ k) s x]
    exact hf
  · intro hp
    have h1 := try_pop_size hk hs moved item hp
    have h2 := size_le hk hs
    cases hf : full (2 ^ k) (try_pop (2 ^ k) moved s item).2.1
    · rfl
    · rw [full_iff_size hk (try_pop_wellFormed hk hs moved item)] at hf
      omega

theorem empty_full_snapshots_witness :
    4 < 64 ∧ (List.replicate 16 (0 : Nat)).length = 2 ^ 4
      ∧ (full (2 ^ 4) (run (2 ^ 4) id (RingBuffer.new (List.replicate 16 (0 : Nat)))
            [Op.push 1, Op.pop 0]) = true
          ↔ size (2 ^ 4) (run (2 ^ 4) id (RingBuffer.new (List.replicate 16 (0 : Nat)))
            [Op.push 1, Op.pop 0]) = capacity (2 ^ 4)) :=
  ⟨by decide, by decide,
    (empty_full_snapshots 4 (by decide) id (List.replicate 16 (0 : Nat)) (by decide)
      [Op.push 1, Op.pop 0] 7 0).2.1⟩

/-- C11 as stated fails for `Size = 1`, which the static assertions accept: the
fresh buffer is empty and full at once. -/
theorem fresh_buffer_of_size_one_is_full :
    static_assert_ok 1 = true
      ∧ empty (RingBuffer.new [0] : RingBuffer Nat) = true
      ∧ full 1 (RingBuffer.new [0] : RingBuffer Nat) = true := by
  decide

/-- C14: for every power-of-two `Size`, `capacity()` is `Size - 1` (15 for 16,
63 for 64); no reachable state has `size() > capacity()`, and the state reached
by `Size - 1` pushes on a fresh buffer has `size() == capacity()`. -/
theorem capacity_is_largest_size [Inhabited T] (k : Nat) (hk : k < 64) (moved : T → T)
    (slots : List T) (hslots : slots.length = 2 ^ k) :
    capacity (2 ^ k) = 2 ^ k - 1
      ∧ capacity 16 = 15 ∧ capacity 64 = 63
      ∧ (∀ ops : List (Op T),
          size (2 ^ k) (run (2 ^ k) moved (RingBuffer.new slots) ops) ≤ capacity (2 ^ k))
      ∧ ∃ ops : List (Op T),
          size (2 ^ k) (run (2 ^ k) moved (RingBuffer.new slots) ops) = capacity (2 ^ k) := by
  have hcap := capacity_two_pow hk
  refine ⟨hcap, by decide, by decide, ?_, ?_⟩
  · intro ops
    rw [hcap]
    exact size_le hk (reachable_wellFormed hk moved hslots ops)
  · refine ⟨(List.replicate (2 ^ k - 1) default).map Op.push, ?_⟩
    rw [hcap]
    exact size_filled hk moved hslots default

theorem capacity_is_largest_size_witness :
    6 < 64 ∧ (List.replicate 64 (0 : Nat)).length = 2 ^ 6
      ∧ capacity (2 ^ 6) = 2 ^ 6 - 1 :=
  ⟨by decide, by decide,
    (capacity_is_largest_size 6 (by decide) id (List.replicate 64 (0 : Nat)) (by decide)).1⟩

/-- C17: for a power-of-two `Size` and cursors `w`, `r` below `Size`, the masked
successor `(w + 1) & (Size - 1)` is `(w + 1) mod Size`, and the masked unsigned
difference `((w - r) mod 2^64) & (Size - 1)` is the non-negative `(w - r) mod Size`,
also when `w < r` and the 64-bit subtraction wraps around. -/
theorem masked_cursor_arithmetic (k : Nat) (hk : k < 64) (w r : Nat) (hw : w < 2 ^ k)
    (hr : r < 2 ^ k) :
    uadd w 1 &&& mask_ (2 ^ k) = (w + 1) % 2 ^ k
      ∧ ((usub w r &&& mask_ (2 ^ k) : Nat) : Int)
          = ((w : Int) - (r : Int)) % ((2 ^ k : Nat) : Int)
      ∧ (w < r → usub w r = w + 2 ^ 64 - r ∧ usub w r &&& mask_ (2 ^ k) = w + 2 ^ k - r)
      ∧ (r ≤ w → usub w r &&& mask_ (2 ^ k) = w - r) := by
  have hwf : WellFormed (2 ^ k)
      ({ write_pos_ := w, read_pos_ := r, buffer_ := List.replicate (2 ^ k) () } : RingBuffer Unit) :=
    ⟨hw, hr, List.length_replicate _ _⟩
  have hsz := size_eq hk hwf
  have hmod := size_eq_emod hk hwf
  have hlt := two_pow_lt_SIZE_MOD hk
  refine ⟨?_, hmod, ?_, ?_⟩
  · rw [next_pos_eq hk hw, mod_of_lt_two_mul (by omega)]
    split <;> omega
  · intro h
    refine ⟨usub_of_lt h (by omega), ?_⟩
    have h2 : size (2 ^ k)
        ({ write_pos_ := w, read_pos_ := r, buffer_ := List.replicate (2 ^ k) () } : RingBuffer Unit)
        = w + 2 ^ k - r := by
      rw [hsz]
      exact if_neg (by simp only; omega)
    exact h2
  · intro h
    have h2 : size (2 ^ k)
        ({ write_pos_ := w, read_pos_ := r, buffer_ := List.replicate (2 ^ k) () } : RingBuffer Unit)
        = w - r := by
      rw [hsz]
      exact if_pos h
    exact h2

theorem masked_cursor_arithmetic_witness :
    4 < 64 ∧ 2 < 2 ^ 4 ∧ 13 < 2 ^ 4
      ∧ ((usub 2 13 &&& mask_ (2 ^ 4) : Nat) : Int)
          = (((2 : Nat) : Int) - ((13 : Nat) : Int)) % ((2 ^ 4 : Nat) : Int) :=
  ⟨by decide, by decide, by decide,
    (masked_cursor_arithmetic 4 (by decide) 2 13 (by decide) (by decide)).2.1⟩

/-- C19: in every state reached from construction both cursors are below `Size`
and the array has `Size` slots, so the slot `try_pop` reads exists (the read
does not fall back on the default value) and the slot `try_push` writes exists
(the write is not dropped). -/
theorem cursors_in_bounds [Inhabited T] (k : Nat) (hk : k < 64) (moved : T → T)
    (slots : List T) (hslots : slots.length = 2 ^ k) (ops : List (Op T)) (x : T) :
    (run (2 ^ k) moved (RingBuffer.new slots) ops).write_pos_ < 2 ^ k
      ∧ (run (2 ^ k) moved (RingBuffer.new slots) ops).read_pos_ < 2 ^ k
      ∧ (run (2 ^ k) moved (RingBuffer.new slots) ops).buffer_.length = 2 ^ k
      ∧ (∃ v, (run (2 ^ k) moved (RingBuffer.new slots) ops).buffer_[
              (run (2 ^ k) moved (RingBuffer.new slots) ops).read_pos_]? = some v
          ∧ (run (2 ^ k) moved (RingBuffer.new slots) ops).buffer_.getD
              (run (2 ^ k) moved (RingBuffer.new slots) ops).read_pos_ default = v)
      ∧ ((run (2 ^ k) moved (RingBuffer.new slots) ops).buffer_.set
            (run (2 ^ k) moved (RingBuffer.new slots) ops).write_pos_ x)[
          (run (2 ^ k) moved (RingBuffer.new slots) ops).write_pos_]? = some x := by
  have hs := reachable_wellFormed hk moved hslots ops
  generalize run (2 ^ k) moved (RingBuffer.new slots) ops = s at hs ⊢
  obtain ⟨hw, hr, hl⟩ := hs
  refine ⟨hw, hr, hl, ?_, ?_⟩
  · have hr2 : s.read_pos_ < s.buffer_.length := by omega
    refine ⟨s.buffer_[s.read_pos_], List.getElem?_eq_getElem hr2, ?_⟩
    rw [List.getD_eq_getElem?_getD, List.getElem?_eq_getElem hr2]
    rfl
  · rw [List.getElem?_set]
    simp only [if_true]
    rw [if_pos (by omega)]

theorem cursors_in_bounds_witness :
    4 < 64 ∧ (List.replicate 16 (0 : Nat)).length = 2 ^ 4
      ∧ (run (2 ^ 4) id (RingBuffer.new (List.replicate 16 (0 : Nat)))
          [Op.push 1, Op.push 2, Op.pop 0]).write_pos_ < 2 ^ 4 :=
  ⟨by decide, by decide,
    (cursors_in_bounds 4 (by decide) id (List.replicate 16 (0 : Nat)) (by decide)
      [Op.push 1, Op.push 2, Op.pop 0] 9).1⟩

end RingBufferProperties2

/-! ## The ring buffer as a bounded FIFO queue -/

section Refinement

open RingBuffer

variable {T : Type}

/-- `try_push` does on the held elements what the queue's push does. -/
theorem try_push_refines [Inhabited T] {k : Nat} (hk : k < 64) {s : RingBuffer T}
    (hs : WellFormed (2 ^ k) s) (x : T) :
    (try_push (2 ^ k) s x).1 = (BoundedQueue.try_push (2 ^ k) (contents (2 ^ k) s) x).1
      ∧ contents (2 ^ k) (try_push (2 ^ k) s x).2
        = (BoundedQueue.try_push (2 ^ k) (contents (2 ^ k) s) x).2 := by
  have hle := size_le hk hs
  cases h : (try_push (2 ^ k) s x).1
  · have hsz := (try_push_false_iff hk hs x).1 h
    have hq : ¬ (contents (2 ^ k) s).length < 2 ^ k - 1 := by
      rw [length_contents]; omega
    rw [try_push_fail_state _ _ _ h]
    simp only [BoundedQueue.try_push, if_neg hq, and_self]
  · have hsz : size (2 ^ k) s ≠ 2 ^ k - 1 := by
      intro h1
      rw [← try_push_false_iff hk hs x, h] at h1
      exact Bool.noConfusion h1
    have hq : (contents (2 ^ k) s).length < 2 ^ k - 1 := by
      rw [length_contents]; omega
    rw [try_push_contents hk hs x h]
    simp only [BoundedQueue.try_push, if_pos hq, and_self]

/-- `try_pop` does on the held elements what the queue's pop does. -/
theorem try_pop_refines [Inhabited T] {k : Nat} (hk : k < 64) {s : RingBuffer T}
    (hs : WellFormed (2 ^ k) s) (moved : T → T) (item : T) :
    (try_pop (2 ^ k) moved s item).1 = (BoundedQueue.try_pop (contents (2 ^ k) s) item).1
      ∧ contents (2 ^ k) (try_pop (2 ^ k) moved s item).2.1
        = (BoundedQueue.try_pop (contents (2 ^ k) s) item).2.1
      ∧ (try_pop (2 ^ k) moved s item).2.2
        = (BoundedQueue.try_pop (contents (2 ^ k) s) item).2.2 := by
  cases h : (try_pop (2 ^ k) moved s item).1
  · have hsz := (try_pop_false_iff hk hs moved item).1 h
    have hq : contents (2 ^ k) s = [] := by
      apply List.eq_nil_of_length_eq_zero
      rw [length_contents, hsz]
    rw [try_pop_fail_state _ _ _ _ h, hq]
    exact ⟨rfl, rfl, rfl⟩
  · rw [try_pop_contents hk hs moved item h]
    exact ⟨rfl, rfl, rfl⟩

/-- A sequence of calls on the ring buffer hands back what the same calls hand
back on the queue of its held elements, and ends holding what the queue holds. -/
theorem run_refines [Inhabited T] {k : Nat} (hk : k < 64) (moved : T → T)
    (ops : List (Op T)) {s : RingBuffer T} (hs : WellFormed (2 ^ k) s) :
    contents (2 ^ k) (run (2 ^ k) moved s ops)
        = BoundedQueue.run (2 ^ k) (contents (2 ^ k) s) ops
      ∧ observations (2 ^ k) moved s ops
        = BoundedQueue.observations (2 ^ k) (contents (2 ^ k) s) ops := by
  induction ops generalizing s with
  | nil => exact ⟨rfl, rfl⟩
  | cons op ops ih =>
    obtain ⟨i1, i2⟩ := @ih (step (2 ^ k) moved s op) (step_wellFormed hk moved hs op)
    cases op with
    | push x =>
      obtain ⟨p1, p2⟩ := try_push_refines hk hs x
      simp only [step] at i1 i2
      simp only [run, observations, BoundedQueue.run, BoundedQueue.observations, step, observe,
        BoundedQueue.step, BoundedQueue.observe, i1, i2, p1, p2, and_self]
    | pop item =>
      obtain ⟨p1, p2, p3⟩ := try_pop_refines hk hs moved item
      simp only [step] at i1 i2
      simp only [run, observations, BoundedQueue.run, BoundedQueue.observations, step, observe,
        BoundedQueue.step, BoundedQueue.observe, i1, i2, p1, p2, p3, and_self]

end Refinement

/-! ## The static assertions on `Size` -/

section StaticAssert

open RingBuffer

/-- The bit test `n & (n - 1) == 0` singles out the powers of two among the
positive numbers. -/
theorem and_pred_eq_zero_iff {n : Nat} (hn : 0 < n) : n &&& (n - 1) = 0 ↔ ∃ k, n = 2 ^ k := by
  constructor
  · intro h
    refine ⟨n.log2, ?_⟩
    have h1 : 2 ^ n.log2 ≤ n := Nat.log2_self_le (by omega)
    have h2 : n < 2 ^ (n.log2 + 1) := Nat.lt_log2_self
    by_contra hne
    have h3 : 2 ^ n.log2 ≤ n - 1 := by omega
    have hbit : ∀ m, 2 ^ n.log2 ≤ m → m < 2 ^ (n.log2 + 1) → m.testBit n.log2 = true := by
      intro m hm1 hm2
      rw [Nat.testBit_to_div_mod]
      have hd : m / 2 ^ n.log2 = 1 := by
        apply Nat.div_eq_of_lt_le
        · omega
        · rw [Nat.pow_succ] at hm2; omega
      rw [hd]
      rfl
    have h4 := hbit n h1 h2
    have h5 := hbit (n - 1) h3 (by omega)
    have h6 : (n &&& (n - 1)).testBit n.log2 = true := by
      rw [Nat.testBit_and, h4, h5]
      rfl
    rw [h, Nat.zero_testBit] at h6
    exact Bool.noConfusion h6
  · rintro ⟨k, rfl⟩
    rw [Nat.and_pow_two_sub_one_eq_mod, Nat.mod_self]

/-- The two static assertions hold for a 64-bit `Size` exactly when it is a
power of two. -/
theorem static_assert_ok_iff {Size : Nat} (hS : Size < SIZE_MOD) :
    static_assert_ok Size = true ↔ ∃ k, Size = 2 ^ k := by
  rcases Nat.eq_zero_or_pos Size with h0 | hpos
  · subst h0
    constructor
    · intro h
      simp [static_assert_ok] at h
    · rintro ⟨k, hk⟩
      have := Nat.two_pow_pos k
      omega
  · have hsub : usub Size 1 = Size - 1 := usub_of_le hpos hS
    simp only [static_assert_ok, hsub, Bool.and_eq_true, beq_iff_eq, decide_eq_true_eq]
    rw [and_pred_eq_zero_iff hpos]
    exact ⟨fun h => h.1, fun h => ⟨h, hpos⟩⟩

end StaticAssert

/-! ## Refinement and static assertions: the properties -/

section RingBufferProperties3

open RingBuffer

variable {T : Type}

/-- C16: with the held elements (the slots from `read_pos_` up to
`write_pos_`, indices modulo `Size`) as abstraction, the ring buffer refines a
bounded FIFO queue: from construction, any sequence of calls hands back what it
hands back on the queue and ends holding what the queue holds; in every state
reached, `try_push x` succeeds exactly when fewer than `Size - 1` elements are
held and then appends `x`, a successful `try_pop` removes and returns the
oldest element, and failed calls leave the held elements as they are. -/
theorem ring_buffer_refines_bounded_queue [Inhabited T] (k : Nat) (hk : k < 64)
    (moved : T → T) (slots : List T) (hslots : slots.length = 2 ^ k) (ops : List (Op T))
    (x item : T) :
    contents (2 ^ k) (RingBuffer.new slots) = []
      ∧ contents (2 ^ k) (run (2 ^ k) moved (RingBuffer.new slots) ops)
          = BoundedQueue.run (2 ^ k) [] ops
      ∧ observations (2 ^ k) moved (RingBuffer.new slots) ops
          = BoundedQueue.observations (2 ^ k) [] ops
      ∧ ((try_push (2 ^ k) (run (2 ^ k) moved (RingBuffer.new slots) ops) x).1 = true
          ↔ (contents (2 ^ k) (run (2 ^ k) moved (RingBuffer.new slots) ops)).length
              < 2 ^ k - 1)
      ∧ ((try_push (2 ^ k) (run (2 ^ k) moved (RingBuffer.new slots) ops) x).1 = true →
          contents (2 ^ k) (try_push (2 ^ k) (run (2 ^ k) moved (RingBuffer.new slots) ops) x).2
            = contents (2 ^ k) (run (2 ^ k) moved (RingBuffer.new slots) ops) ++ [x])
      ∧ ((try_push (2 ^ k) (run (2 ^ k) moved (RingBuffer.new slots) ops) x).1 = false →
          contents (2 ^ k) (try_push (2 ^ k) (run (2 ^ k) moved (RingBuffer.new slots) ops) x).2
            = contents (2 ^ k) (run (2 ^ k) moved (RingBuffer.new slots) ops))
      ∧ ((try_pop (2 ^ k) moved (run (2 ^ k) moved (RingBuffer.new slots) ops) item).1 = true →
          contents (2 ^ k) (run (2 ^ k) moved (RingBuffer.new slots) ops)
            = (try_pop (2 ^ k) moved (run (2 ^ k) moved (RingBuffer.new slots) ops) item).2.2
              :: contents (2 ^ k)
                (try_pop (2 ^ k) moved (run (2 ^ k) moved (RingBuffer.new slots) ops) item).2.1)
      ∧ ((try_pop (2 ^ k) moved (run (2 ^ k) moved (RingBuffer.new slots) ops) item).1 = false →
          contents (2 ^ k)
              (try_pop (2 ^ k) moved (run (2 ^ k) moved (RingBuffer.new slots) ops) item).2.1
            = contents (2 ^ k) (run (2 ^ k) moved (RingBuffer.new slots) ops)) := by
  have hnew : WellFormed (2 ^ k) (RingBuffer.new slots) :=
    wellFormed_new (Nat.two_pow_pos k) hslots
  have hc0 : contents (2 ^ k) (RingBuffer.new slots) = [] := by
    apply List.eq_nil_of_length_eq_zero
    rw [length_contents, size_new hk hslots]
  obtain ⟨r1, r2⟩ := run_refines hk moved ops hnew
  rw [hc0] at r1 r2
  have hs := reachable_wellFormed hk moved hslots ops
  generalize run (2 ^ k) moved (RingBuffer.new slots) ops = s at hs r1 ⊢
  refine ⟨hc0, r1, r2, ?_, try_push_contents hk hs x, ?_, try_pop_contents hk hs moved item, ?_⟩
  · have hle := size_le hk hs
    rw [length_contents]
    constructor
    · intro h
      have : size (2 ^ k) s ≠ 2 ^ k - 1 := by
        intro h1
        rw [← try_push_false_iff hk hs x, h] at h1
        exact Bool.noConfusion h1
      omega
    · intro h
      cases hp : (try_push (2 ^ k) s x).1
      · rw [try_push_false_iff hk hs x] at hp
        omega
      · rfl
  · intro h
    rw [try_push_fail_state _ _ _ h]
  · intro h
    rw [try_pop_fail_state _ _ _ _ h]

theorem ring_buffer_refines_bounded_queue_witness :
    2 < 64 ∧ (List.replicate 4 (0 : Nat)).length = 2 ^ 2
      ∧ observations (2 ^ 2) id (RingBuffer.new (List.replicate 4 (0 : Nat)))
          [Op.push 1, Op.push 2, Op.push 3, Op.push 4, Op.pop 0, Op.pop 0, Op.push 5,
            Op.push 6, Op.pop 0, Op.pop 0, Op.pop 0, Op.pop 0]
        = BoundedQueue.observations (2 ^ 2) []
          [Op.push 1, Op.push 2, Op.push 3, Op.push 4, Op.pop 0, Op.pop 0, Op.push 5,
            Op.push 6, Op.pop 0, Op.pop 0, Op.pop 0, Op.pop 0] :=
  ⟨by decide, by decide,
    (ring_buffer_refines_bounded_queue 2 (by decide) id (List.replicate 4 (0 : Nat)) (by decide)
      [Op.push 1, Op.push 2, Op.push 3, Op.push 4, Op.pop 0, Op.pop 0, Op.push 5,
        Op.push 6, Op.pop 0, Op.pop 0, Op.pop 0, Op.pop 0] 9 0).2.2.1⟩

/-- C18: over unsigned 64-bit values the two static assertions accept `Size`
exactly when `Size = 2 ^ k` for some `k`; they reject 0 and accept 1, and for
`Size = 1` `capacity()` is 0 and `try_push` fails in every reachable state. -/
theorem static_assert_accepts_powers_of_two [Inhabited T] (Size : Nat) (hS : Size < 2 ^ 64)
    (moved : T → T) (slots : List T) (hslots : slots.length = 1) (ops : List (Op T)) (x : T) :
    (static_assert_ok Size = true ↔ ∃ k, Size = 2 ^ k)
      ∧ static_assert_ok 0 = false
      ∧ static_assert_ok 1 = true
      ∧ capacity 1 = 0
      ∧ (try_push 1 (run 1 moved (RingBuffer.new slots) ops) x).1 = false := by
  refine ⟨static_assert_ok_iff hS, by decide, by decide, by decide, ?_⟩
  have hs : WellFormed (2 ^ 0) (run (2 ^ 0) moved (RingBuffer.new slots) ops) :=
    reachable_wellFormed (by decide) moved hslots ops
  have hle := size_le (by decide) hs
  exact (try_push_false_iff (by decide) hs x).2 (by omega)

theorem static_assert_accepts_powers_of_two_witness :
    12 < 2 ^ 64 ∧ [(0 : Nat)].length = 1
      ∧ (static_assert_ok 12 = true ↔ ∃ k, 12 = 2 ^ k) :=
  ⟨by decide, by decide,
    (static_assert_accepts_powers_of_two 12 (by decide) id [(0 : Nat)] (by decide)
      [Op.push 1, Op.pop 0] 5).1⟩

end RingBufferProperties3

/-! ## Counting accepted entries, and the length of a line -/

section LoggerCounting

open RingBuffer AsyncLogger

theorem write_entry_buffer (e : LogEntry) (s : AsyncLogger) :
    (write_entry e s).buffer_ = s.buffer_ := by
  unfold write_entry
  split <;> rfl

/-- A `log` call on a running logger either adds one element to the buffer, or
finds the buffer holding 2047 elements and changes nothing. -/
theorem log_size (msg : List Char) (now : Int) (entry0 : LogEntry) {s : AsyncLogger}
    (hs : Consistent s) (hr : s.running_ = true) :
    ((log msg now entry0 s).1 = true →
        size BUFFER_SIZE (log msg now entry0 s).2.buffer_ = size BUFFER_SIZE s.buffer_ + 1)
      ∧ ((log msg now entry0 s).1 = false →
        (log msg now entry0 s).2 = s ∧ size BUFFER_SIZE s.buffer_ = 2047) := by
  have e : log msg now entry0 s
      = ((try_push BUFFER_SIZE s.buffer_ (log_entry msg now entry0)).1,
          { s with buffer_ := (try_push BUFFER_SIZE s.buffer_ (log_entry msg now entry0)).2 }) := by
    simp [log, hr]
  rw [e]
  constructor
  · intro h
    exact @try_push_size LogEntry 11 (by decide) s.buffer_ hs.1 _ h
  · intro h
    have h1 : (try_push BUFFER_SIZE s.buffer_ (log_entry msg now entry0)).1 = false := h
    refine ⟨?_, (@try_push_false_iff LogEntry 11 (by decide) s.buffer_ hs.1 _).1 h1⟩
    simp only [try_push_fail_state _ _ _ h1]

/-- A turn of the background thread of a running logger takes one element out
of the buffer, unless there is none. -/
theorem worker_step_size {s : AsyncLogger} (hs : Consistent s) (hr : s.running_ = true) :
    size BUFFER_SIZE (worker_step s).buffer_ = size BUFFER_SIZE s.buffer_ - 1 := by
  obtain ⟨hf, ht⟩ := hs.2.1 hr
  cases hp : (try_pop BUFFER_SIZE id s.buffer_ default).1
  · have e : worker_step s = s := by simp [worker_step, ht, hp]
    rw [e, drain_done hs.1 hp]
  · have e : worker_step s
        = write_entry (try_pop BUFFER_SIZE id s.buffer_ default).2.2
            { s with buffer_ := (try_pop BUFFER_SIZE id s.buffer_ default).2.1 } := by
      simp [worker_step, ht, hp]
    obtain ⟨-, h2, -, -⟩ := drain_turn hs.1 hf hp
    rw [e]
    omega

/-- Bounds on the number of accepted `log` calls in a run of `log` calls and
turns of the background thread on a running logger. -/
theorem accepted_bounds (fuel : Nat) (es : List Event)
    (hes : ∀ e ∈ es, e.isLog = true ∨ e.isWorker = true) {s : AsyncLogger}
    (hs : Consistent s) (hr : s.running_ = true) :
    (accepted fuel s es).length ≤ es.countP Event.isLog
      ∧ min (es.countP Event.isLog) (2047 - size BUFFER_SIZE s.buffer_)
          ≤ (accepted fuel s es).length
      ∧ (accepted fuel s es).length + size BUFFER_SIZE s.buffer_
          ≤ 2047 + es.countP Event.isWorker := by
  induction es generalizing s with
  | nil =>
    have hle : size BUFFER_SIZE s.buffer_ ≤ 2 ^ 11 - 1 := @size_le LogEntry 11 (by decide) _ hs.1
    simp only [accepted, List.length_nil, List.countP_nil]
    omega
  | cons e es ih =>
    have hes1 : ∀ e ∈ es, e.isLog = true ∨ e.isWorker = true :=
      fun e he => hes e (List.mem_cons_of_mem _ he)
    cases e with
    | start open_ok =>
      rcases hes _ (List.mem_cons_self _ _) with h | h <;> exact Bool.noConfusion h
    | stop k =>
      rcases hes _ (List.mem_cons_self _ _) with h | h <;> exact Bool.noConfusion h
    | io_error =>
      rcases hes _ (List.mem_cons_self _ _) with h | h <;> exact Bool.noConfusion h
    | log msg now entry0 =>
      obtain ⟨c1, -, c3⟩ := log_spec msg now entry0 hs
      obtain ⟨z1, z2⟩ := log_size msg now entry0 hs hr
      obtain ⟨i1, i2, i3⟩ := @ih hes1 (log msg now entry0 s).2 c1 (c3.trans hr)
      have hcons : accepted fuel s (Event.log msg now entry0 :: es)
          = (if (log msg now entry0 s).1 then [log_entry msg now entry0] else [])
            ++ accepted fuel (log msg now entry0 s).2 es := by
        rw [accepted_cons, accepted_single]
        rfl
      have hL : (Event.log msg now entry0 :: es).countP Event.isLog
          = es.countP Event.isLog + 1 := by
        rw [List.countP_cons]; rfl
      have hW : (Event.log msg now entry0 :: es).countP Event.isWorker
          = es.countP Event.isWorker := by
        rw [List.countP_cons]; rfl
      rw [hcons, hL, hW]
      cases hl : (log msg now entry0 s).1
      · obtain ⟨y1, y2⟩ := z2 hl
        rw [y1] at i1 i2 i3
        simp only [Bool.false_eq_true, if_false, List.nil_append, y1]
        omega
      · have y := z1 hl
        simp only [if_true, List.singleton_append, List.length_cons]
        omega
    | worker =>
      obtain ⟨c1, -, c3⟩ := worker_step_spec hs
      have z := worker_step_size hs hr
      obtain ⟨i1, i2, i3⟩ := @ih hes1 (worker_step s) c1 (c3.trans hr)
      have hcons : accepted fuel s (Event.worker :: es) = accepted fuel (worker_step s) es := by
        rw [accepted_cons, accepted_single]
        rfl
      have hL : (Event.worker :: es).countP Event.isLog = es.countP Event.isLog := by
        rw [List.countP_cons]; rfl
      have hW : (Event.worker :: es).countP Event.isWorker = es.countP Event.isWorker + 1 := by
        rw [List.countP_cons]; rfl
      rw [hcons, hL, hW]
      omega

theorem log_then_drain_succ (msg : List Char) (n : Nat) :
    log_then_drain msg (n + 1)
      = Event.log msg 0 default :: Event.worker :: log_then_drain msg n := by
  simp [log_then_drain, List.replicate_succ]

theorem countP_log_then_drain (msg : List Char) (n : Nat) :
    (log_then_drain msg n).countP Event.isLog = n
      ∧ (log_then_drain msg n).countP Event.isWorker = n
      ∧ ∀ e ∈ log_then_drain msg n, e.isLog = true ∨ e.isWorker = true := by
  induction n with
  | zero => simp [log_then_drain]
  | succ n ih =>
    obtain ⟨i1, i2, i3⟩ := ih
    rw [log_then_drain_succ]
    refine ⟨?_, ?_, ?_⟩
    · rw [List.countP_cons, List.countP_cons, i1]; rfl
    · rw [List.countP_cons, List.countP_cons, i2]; rfl
    · intro e he
      rcases List.mem_cons.1 he with h | h
      · rw [h]; exact Or.inl rfl
      · rcases List.mem_cons.1 h with h | h
        · rw [h]; exact Or.inr rfl
        · exact i3 e h

/-- When the background thread takes a turn after every `log` call, a running
logger that starts with an empty buffer accepts every call. -/
theorem accepted_log_then_drain (fuel : Nat) (msg : List Char) (n : Nat) {s : AsyncLogger}
    (hs : Consistent s) (hr : s.running_ = true) (h0 : size BUFFER_SIZE s.buffer_ = 0) :
    (accepted fuel s (log_then_drain msg n)).length = n := by
  induction n generalizing s with
  | zero => rfl
  | succ n ih =>
    obtain ⟨c1, -, c3⟩ := log_spec msg 0 default hs
    obtain ⟨z1, z2⟩ := log_size msg 0 default hs hr
    have hl : (log msg 0 default s).1 = true := by
      cases h : (log msg 0 default s).1
      · have := (z2 h).2
        omega
      · rfl
    have hsz1 := z1 hl
    obtain ⟨d1, -, d3⟩ := worker_step_spec c1
    have hsz2 := worker_step_size c1 (c3.trans hr)
    have i := @ih (worker_step (log msg 0 default s).2) d1 (d3.trans (c3.trans hr)) (by omega)
    have hcons : accepted fuel s (log_then_drain msg (n + 1))
        = log_entry msg 0 default
          :: accepted fuel (worker_step (log msg 0 default s).2) (log_then_drain msg n) := by
      rw [log_then_drain_succ, accepted_cons, accepted_single]
      simp only [hl, if_true, AsyncLogger.apply, List.singleton_append]
      rw [accepted_cons, accepted_single]
      rfl
    rw [hcons, List.length_cons, i]

/-- The decimal form of a signed 64-bit value has at most 20 characters. -/
theorem decimal_length (t : Int) (hlo : -(2 ^ 63) ≤ t) (hhi : t < 2 ^ 63) :
    (decimal t).length ≤ 20 := by
  cases t with
  | ofNat n =>
    have hn : n < 10 ^ 19 := by
      have : (n : Int) < 2 ^ 63 := hhi
      omega
    have := Nat.toDigitsCore_length 10 (by decide) (n + 1) n 19 hn (by decide)
    simp only [decimal, Nat.toDigits]
    omega
  | negSucc n =>
    have hn : n + 1 < 10 ^ 19 := by
      have : -(2 ^ 63 : Int) ≤ Int.negSucc n := hlo
      rw [Int.negSucc_eq] at this
      omega
    have := Nat.toDigitsCore_length 10 (by decide) (n + 1 + 1) (n + 1) 19 hn (by decide)
    simp only [decimal, Nat.toDigits, List.length_cons]
    omega

end LoggerCounting

/-! ## The loop of `flush_remaining` -/

section FlushLoop

open RingBuffer AsyncLogger

/-- The loop of `flush_remaining` runs out of fuel exactly when it is given no
more turns than the buffer holds elements: it takes one successful turn per
element and one more turn to see `try_pop` fail. -/
theorem flush_remaining_loop_none_iff (fuel : Nat) {s : AsyncLogger}
    (hwf : WellFormed BUFFER_SIZE s.buffer_) :
    flush_remaining_loop fuel s = none ↔ fuel ≤ size BUFFER_SIZE s.buffer_ := by
  induction fuel generalizing s with
  | zero => exact ⟨fun _ => Nat.zero_le _, fun _ => rfl⟩
  | succ fuel ih =>
    cases h : (try_pop BUFFER_SIZE id s.buffer_ default).1
    · have e : flush_remaining_loop (fuel + 1) s = some s := by
        simp [flush_remaining_loop, h]
      have h0 := drain_done hwf h
      rw [e, h0]
      constructor
      · intro h1; exact Option.noConfusion h1
      · intro h1; omega
    · have e : flush_remaining_loop (fuel + 1) s
          = flush_remaining_loop fuel
              (write_entry (try_pop BUFFER_SIZE id s.buffer_ default).2.2
                { s with buffer_ := (try_pop BUFFER_SIZE id s.buffer_ default).2.1 }) := by
        simp only [flush_remaining_loop, h, if_true]
      have h1 : WellFormed BUFFER_SIZE (try_pop BUFFER_SIZE id s.buffer_ default).2.1 :=
        @try_pop_wellFormed LogEntry _ 11 (by decide) s.buffer_ hwf id default
      have h2 : size BUFFER_SIZE (try_pop BUFFER_SIZE id s.buffer_ default).2.1 + 1
          = size BUFFER_SIZE s.buffer_ :=
        @try_pop_size LogEntry _ 11 (by decide) s.buffer_ hwf id default h
      have i := @ih (write_entry (try_pop BUFFER_SIZE id s.buffer_ default).2.2
          { s with buffer_ := (try_pop BUFFER_SIZE id s.buffer_ default).2.1 })
        (by rw [write_entry_buffer]; exact h1)
      rw [write_entry_buffer] at i
      rw [e, i]
      show fuel ≤ size BUFFER_SIZE (try_pop BUFFER_SIZE id s.buffer_ default).2.1
        ↔ fuel + 1 ≤ size BUFFER_SIZE s.buffer_
      omega

/-- When the loop of `flush_remaining` ends, the buffer holds nothing. -/
theorem flush_remaining_loop_some_size (fuel : Nat) {s s1 : AsyncLogger}
    (hwf : WellFormed BUFFER_SIZE s.buffer_) (h : flush_remaining_loop fuel s = some s1) :
    size BUFFER_SIZE s1.buffer_ = 0 := by
  induction fuel generalizing s with
  | zero => exact Option.noConfusion h
  | succ fuel ih =>
    cases hp : (try_pop BUFFER_SIZE id s.buffer_ default).1
    · have e : flush_remaining_loop (fuel + 1) s = some s := by
        simp [flush_remaining_loop, hp]
      rw [e] at h
      rw [← Option.some.inj h]
      exact drain_done hwf hp
    · have e : flush_remaining_loop (fuel + 1) s
          = flush_remaining_loop fuel
              (write_entry (try_pop BUFFER_SIZE id s.buffer_ default).2.2
                { s with buffer_ := (try_pop BUFFER_SIZE id s.buffer_ default).2.1 }) := by
        simp only [flush_remaining_loop, hp, if_true]
      rw [e] at h
      have h1 : WellFormed BUFFER_SIZE (try_pop BUFFER_SIZE id s.buffer_ default).2.1 :=
        @try_pop_wellFormed LogEntry _ 11 (by decide) s.buffer_ hwf id default
      exact @ih _ (by rw [write_entry_buffer]; exact h1) h

end FlushLoop

/-! ## Further properties of the logger -/

section LoggerProperties2

open RingBuffer AsyncLogger

/-- C12, as amended: for 3000 `log` calls on a freshly started logger,
interleaved in any way with turns of the background thread, at least 2047 calls
return true (more than half of the attempts) and at most 3000; the number is at
most 2047 plus the number of turns of the background thread, so it is below
3000 when the thread takes fewer than 953 turns in between. -/
theorem high_frequency_logging_bounds (fuel : Nat) (slots : List LogEntry)
    (hslots : slots.length = BUFFER_SIZE) (content : List Char) (es : List Event)
    (hes : ∀ e ∈ es, e.isLog = true ∨ e.isWorker = true)
    (hcount : es.countP Event.isLog = 3000) :
    2047 ≤ (accepted fuel (start true (AsyncLogger.new slots content)) es).length
      ∧ 1500 < (accepted fuel (start true (AsyncLogger.new slots content)) es).length
      ∧ (accepted fuel (start true (AsyncLogger.new slots content)) es).length ≤ 3000
      ∧ (accepted fuel (start true (AsyncLogger.new slots content)) es).length
          ≤ 2047 + es.countP Event.isWorker
      ∧ (es.countP Event.isWorker < 953 →
          (accepted fuel (start true (AsyncLogger.new slots content)) es).length < 3000) := by
  have hs := (start_spec true (consistent_new hslots content)).1
  have hr : (start true (AsyncLogger.new slots content)).running_ = true := rfl
  have h0 : size BUFFER_SIZE (start true (AsyncLogger.new slots content)).buffer_ = 0 :=
    @size_new LogEntry 11 (by decide) slots hslots
  obtain ⟨b1, b2, b3⟩ := accepted_bounds fuel es hes hs hr
  rw [h0] at b2 b3
  rw [hcount] at b1 b2
  refine ⟨?_, ?_, b1, ?_, ?_⟩ <;> omega

theorem high_frequency_logging_bounds_witness :
    (List.replicate 2048 (default : LogEntry)).length = BUFFER_SIZE
      ∧ (∀ e ∈ log_then_drain ['H', 'F', NUL] 3000, e.isLog = true ∨ e.isWorker = true)
      ∧ (log_then_drain ['H', 'F', NUL] 3000).countP Event.isLog = 3000
      ∧ 1500 < (accepted 2048 (start true (AsyncLogger.new (List.replicate 2048 default) []))
          (log_then_drain ['H', 'F', NUL] 3000)).length :=
  ⟨List.length_replicate _ _, (countP_log_then_drain ['H', 'F', NUL] 3000).2.2,
    (countP_log_then_drain ['H', 'F', NUL] 3000).1,
    (high_frequency_logging_bounds 2048 (List.replicate 2048 default)
      (List.length_replicate _ _) [] (log_then_drain ['H', 'F', NUL] 3000)
      (countP_log_then_drain ['H', 'F', NUL] 3000).2.2
      (countP_log_then_drain ['H', 'F', NUL] 3000).1).2.1⟩

/-- C12 as stated fails: in the interleaving in which the background thread
takes a turn after each of the 3000 `log` calls, all 3000 calls return true. -/
theorem high_frequency_logging_all_accepted :
    (∀ e ∈ log_then_drain ['H', 'F', NUL] 3000, e.isLog = true ∨ e.isWorker = true)
      ∧ (log_then_drain ['H', 'F', NUL] 3000).countP Event.isLog = 3000
      ∧ ¬ (accepted 2048 (start true (AsyncLogger.new (List.replicate 2048 default) []))
          (log_then_drain ['H', 'F', NUL] 3000)).length < 3000 := by
  refine ⟨(countP_log_then_drain _ 3000).2.2, (countP_log_then_drain _ 3000).1, ?_⟩
  have hslots : (List.replicate 2048 (default : LogEntry)).length = BUFFER_SIZE :=
    List.length_replicate _ _
  have hs := (start_spec true (consistent_new hslots [])).1
  have h0 : size BUFFER_SIZE
      (start true (AsyncLogger.new (List.replicate 2048 default) [])).buffer_ = 0 :=
    @size_new LogEntry 11 (by decide) _ hslots
  rw [accepted_log_then_drain 2048 ['H', 'F', NUL] 3000 hs rfl h0]
  exact Nat.lt_irrefl _

/-- C13: for a NUL-terminated message of any length and a signed 64-bit
timestamp, the line written for the entry `log` builds is the header
`"[<timestamp>] "`, the message and a newline; the message part has at most 255
bytes, the header at most 23, and the line without its newline has at most 255
bytes more than the header, which is at most 300. -/
theorem persisted_line_length (body rest : List Char) (hbody : NUL ∉ body) (now : Int)
    (hlo : -(2 ^ 63) ≤ now) (hhi : now < 2 ^ 63)
    (entry0 : LogEntry) (hentry0 : entry0.message.length = MESSAGE_SIZE) :
    format_entry (log_entry (body ++ NUL :: rest) now entry0)
        = timestamp_header now ++ c_str (log_entry (body ++ NUL :: rest) now entry0).message
          ++ ['\n']
      ∧ c_str (log_entry (body ++ NUL :: rest) now entry0).message = body.take 255
      ∧ (c_str (log_entry (body ++ NUL :: rest) now entry0).message).length ≤ 255
      ∧ (timestamp_header now).length ≤ 23
      ∧ (timestamp_header now
          ++ c_str (log_entry (body ++ NUL :: rest) now entry0).message).length
          ≤ 255 + (timestamp_header now).length
      ∧ 255 + (timestamp_header now).length ≤ 300
      ∧ (timestamp_header now
          ++ c_str (log_entry (body ++ NUL :: rest) now entry0).message).length ≤ 300 := by
  obtain ⟨tl, hm, -⟩ := log_entry_message body rest hbody now entry0 hentry0
  have hc : c_str (log_entry (body ++ NUL :: rest) now entry0).message = body.take 255 := by
    rw [hm]
    exact c_str_before_NUL _ _ (not_mem_take hbody 255)
  have hlen : (body.take 255).length ≤ 255 := by
    rw [List.length_take]
    exact Nat.min_le_left _ _
  have hd := decimal_length now hlo hhi
  have hh : (timestamp_header now).length = (decimal now).length + 3 := by
    simp [timestamp_header]
  refine ⟨rfl, hc, ?_, ?_, ?_, ?_, ?_⟩
  · rw [hc]; exact hlen
  · omega
  · rw [List.length_append, hc]; omega
  · omega
  · rw [List.length_append, hc]; omega

theorem persisted_line_length_witness :
    NUL ∉ List.replicate 500 'A'
      ∧ -(2 ^ 63) ≤ (-9223372036854775808 : Int) ∧ (-9223372036854775808 : Int) < 2 ^ 63
      ∧ (List.replicate 256 'z').length = MESSAGE_SIZE
      ∧ (timestamp_header (-9223372036854775808)
          ++ c_str (log_entry (List.replicate 500 'A' ++ NUL :: []) (-9223372036854775808)
              { message := List.replicate 256 'z', timestamp := 0 }).message).length ≤ 300 :=
  ⟨fun h => absurd (List.eq_of_mem_replicate h) (by decide), by decide, by decide,
    List.length_replicate _ _,
    (persisted_line_length (List.replicate 500 'A') []
      (fun h => absurd (List.eq_of_mem_replicate h) (by decide)) (-9223372036854775808)
      (by decide) (by decide) { message := List.replicate 256 'z', timestamp := 0 }
      (List.length_replicate _ _)).2.2.2.2.2.2⟩

/-- C20: in every state of the logger that is reachable from construction by
`start`, `log`, `stop`, turns of the background thread and refused writes, in
which the logger is stopped, the ring buffer is empty, `log` returns false and
puts nothing into it, and the buffer is still empty after the next `start`, so
that a turn of the background thread of the next cycle finds no entry of an
earlier cycle to write. In every reachable state the loop of `flush_remaining`
ends after exactly `size()` successful pops (it runs out of fuel exactly when
given no more than `size()` turns) and leaves the buffer empty, and `stop`
returns with the logger stopped and the buffer empty. -/
theorem stopped_logger_has_empty_buffer (fuel : Nat) (hfuel : BUFFER_SIZE ≤ fuel)
    (slots : List LogEntry) (hslots : slots.length = BUFFER_SIZE) (content : List Char)
    (es : List Event) (s : AsyncLogger)
    (hreach : exec fuel (AsyncLogger.new slots content) es = some s)
    (msg : List Char) (now : Int) (entry0 : LogEntry) (turns : Nat) (open_ok : Bool)
    (k : Nat) :
    (is_running s = false →
        empty s.buffer_ = true
          ∧ size BUFFER_SIZE s.buffer_ = 0
          ∧ contents BUFFER_SIZE s.buffer_ = []
          ∧ (log msg now entry0 s).1 = false
          ∧ (log msg now entry0 s).2.buffer_ = s.buffer_
          ∧ contents BUFFER_SIZE (start open_ok s).buffer_ = []
          ∧ worker_step (start open_ok s) = start open_ok s)
      ∧ (flush_remaining turns s = none ↔ turns ≤ size BUFFER_SIZE s.buffer_)
      ∧ (∃ s1, flush_remaining (size BUFFER_SIZE s.buffer_ + 1) s = some s1
          ∧ size BUFFER_SIZE s1.buffer_ = 0)
      ∧ ∃ s2, stop fuel k s = some s2 ∧ is_running s2 = false
          ∧ size BUFFER_SIZE s2.buffer_ = 0 ∧ contents BUFFER_SIZE s2.buffer_ = [] := by
  have hs := reachable_consistent fuel hfuel hslots content es hreach
  refine ⟨?_, flush_remaining_loop_none_iff turns hs.1, ?_, ?_⟩
  · intro hstop
    have hr : s.running_ = false := hstop
    have h0 := (hs.2.2 hr).1
    have hc := buffer_contents_nil h0
    have hb : (start open_ok s).buffer_ = s.buffer_ := by
      obtain ⟨b, r, t, f, c, n, x, i⟩ := s
      cases r <;> cases f <;> cases open_ok <;> rfl
    have hp : (try_pop BUFFER_SIZE id (start open_ok s).buffer_ default).1 = false := by
      rw [hb]
      exact (@try_pop_false_iff LogEntry _ 11 (by decide) s.buffer_ hs.1 id default).2 h0
    refine ⟨?_, h0, hc, ?_, ?_, ?_, ?_⟩
    · exact (@empty_iff_size LogEntry _ 11 (by decide) s.buffer_ hs.1).2 h0
    · simp [log, hr]
    · simp [log, hr]
    · rw [hb]
      exact hc
    · simp [worker_step, hp]
  · cases hfl : flush_remaining (size BUFFER_SIZE s.buffer_ + 1) s with
    | none =>
      have := (flush_remaining_loop_none_iff _ hs.1).1 hfl
      omega
    | some s1 => exact ⟨s1, rfl, flush_remaining_loop_some_size _ hs.1 hfl⟩
  · obtain ⟨s2, g1, g2, g3, -, -⟩ := stop_spec fuel k hfuel hs
    exact ⟨s2, g1, g3, (g2.2.2 g3).1, buffer_contents_nil (g2.2.2 g3).1⟩

theorem stopped_logger_has_empty_buffer_witness :
    BUFFER_SIZE ≤ 2048 ∧ (List.replicate 2048 (default : LogEntry)).length = BUFFER_SIZE
      ∧ exec 2048 (AsyncLogger.new (List.replicate 2048 default) [])
          [Event.start true, Event.log ['a', NUL] 1 default, Event.stop 0]
        = some { buffer_ := { write_pos_ := 1, read_pos_ := 1,
                              buffer_ := ((List.replicate 2048 default).set 0
                                (log_entry ['a', NUL] 1 default)).set 0
                                  (log_entry ['a', NUL] 1 default) },
                 running_ := false, thread_ := false, file_ := false,
                 content := format_entry (log_entry ['a', NUL] 1 default), spawned := 1,
                 stream_failed := false,
                 inserted := format_entry (log_entry ['a', NUL] 1 default) }
      ∧ is_running
          ({ buffer_ := { write_pos_ := 1, read_pos_ := 1,
                          buffer_ := ((List.replicate 2048 default).set 0
                            (log_entry ['a', NUL] 1 default)).set 0
                              (log_entry ['a', NUL] 1 default) },
             running_ := false, thread_ := false, file_ := false,
             content := format_entry (log_entry ['a', NUL] 1 default), spawned := 1,
             stream_failed := false,
             inserted := format_entry (log_entry ['a', NUL] 1 default) } : AsyncLogger) = false
      ∧ size BUFFER_SIZE
          ({ write_pos_ := 1, read_pos_ := 1,
             buffer_ := ((List.replicate 2048 default).set 0
               (log_entry ['a', NUL] 1 default)).set 0
                 (log_entry ['a', NUL] 1 default) } : RingBuffer LogEntry) = 0 :=
  ⟨by decide, List.length_replicate _ _, rfl, rfl,
    ((stopped_logger_has_empty_buffer 2048 (by decide) (List.replicate 2048 default)
      (List.length_replicate _ _) []
      [Event.start true, Event.log ['a', NUL] 1 default, Event.stop 0]
      { buffer_ := { write_pos_ := 1, read_pos_ := 1,
                     buffer_ := ((List.replicate 2048 default).set 0
                       (log_entry ['a', NUL] 1 default)).set 0
                         (log_entry ['a', NUL] 1 default) },
        running_ := false, thread_ := false, file_ := false,
        content := format_entry (log_entry ['a', NUL] 1 default), spawned := 1,
        stream_failed := false,
        inserted := format_entry (log_entry ['a', NUL] 1 default) }
      rfl ['b', NUL] 2 default 0 true 0).1 rfl).2.1⟩

end LoggerProperties2

end pet.utils
